import Mathlib

/-!
15445-bootcamp: ownership wrappers and the doubly linked list

A shallow embedding of

* `src/spring2024/s24_my_ptr.cpp`  (class `Pointer<T>`, `smart_generator`),
* `src/wrapper_class.cpp`          (class `IntPtrManager`),
* `src/iterator.cpp`               (`Node`, `DLLIterator`, `DLL`),
* `src/move_constructors.cpp`      (class `Person`),
* `src/move_semantics.cpp`         (`add_three_and_print`),
* `src/mutex.cpp`, `src/scoped_lock.cpp`, `src/condition_variable.cpp`
  (the thread functions, as step functions over the shared state).

The heap is an explicit value.  A cell is named by the position at which it
was allocated, so two `new` expressions never yield the same cell even when a
real allocator would hand out the same machine address again.  Undefined
behaviour (reading or writing through `nullptr`, using an object whose
lifetime has ended, touching a deleted cell) makes an operation return `none`.

Values of type `int` are stored and compared but never computed with, so they
are modelled by `Int`.  The counter `size_` is a `size_t` and is incremented
modulo `2 ^ SIZE_BITS`; `new Node` fails once the heap holds `maxNodes` nodes.
For `Pointer<T>` and `IntPtrManager` an exhausted heap plays no role and
`new T` always succeeds.

The threaded programs are run under every interleaving of atomic actions: a
schedule is a list of thread names, `lock` is enabled only while the mutex is
free, `count += 1` is a read followed by a write, and a thread blocked in
`cv.wait` moves on when it was notified or is woken spuriously.
-/

set_option autoImplicit false

namespace Bootcamp

/-- Name of a heap cell: its allocation index. -/
abbrev Addr := Nat

/-- Contents of one heap cell of type `T`. -/
inductive Cell (T : Type) where
  /-- Storage returned by `new T`, not yet written. -/
  | uninit : Cell T
  /-- Storage holding the value `v`. -/
  | value (v : T) : Cell T
  /-- Storage that was passed to `delete`. -/
  | deleted : Cell T
deriving DecidableEq, Repr

/-- Heap of cells of type `T`, with the log of every `delete` executed
(most recent first). -/
structure Heap (T : Type) where
  cells : List (Cell T)
  freed : List Addr
deriving DecidableEq, Repr

namespace Heap

variable {T : Type}

/-- Expression `new T`: a brand-new, unwritten cell. -/
def alloc (h : Heap T) : Addr × Heap T :=
  (h.cells.length, { h with cells := h.cells ++ [Cell.uninit] })

/-- Expression `*p` used as a value. -/
def read (h : Heap T) (a : Addr) : Option T :=
  match h.cells[a]? with
  | some (Cell.value v) => some v
  | _ => none

/-- Statement `*p = v`. -/
def write (h : Heap T) (a : Addr) (v : T) : Option (Heap T) :=
  match h.cells[a]? with
  | some Cell.uninit => some { h with cells := h.cells.set a (Cell.value v) }
  | some (Cell.value _) => some { h with cells := h.cells.set a (Cell.value v) }
  | _ => none

/-- Statement `delete p` for a non-null `p`.  The call is logged even when the
cell was deleted before, so that a double deletion shows up in `freed`. -/
def delete (h : Heap T) (a : Addr) : Heap T :=
  { cells := h.cells.set a Cell.deleted, freed := a :: h.freed }

end Heap

/-- An object of class `Pointer<T>` or of class `IntPtrManager`: either class
has the single data member `ptr_`; `none` stands for `nullptr`. -/
structure Obj where
  ptr_ : Option Addr
deriving DecidableEq, Repr

/-- Program state: the heap, the objects created so far (position = identity of
the object, `none` once its lifetime has ended) and the lines written to
`std::cout`. -/
structure Machine (T : Type) where
  heap : Heap T
  objs : List (Option Obj)
  out : List String
deriving DecidableEq, Repr

namespace Machine

variable {T : Type}

/-- State at program start. -/
def init : Machine T := { heap := { cells := [], freed := [] }, objs := [], out := [] }

/-- The live object with identity `i`, if any. -/
def obj (s : Machine T) (i : Nat) : Option Obj :=
  match s.objs[i]? with
  | some (some o) => some o
  | _ => none

/-- Start the lifetime of a new object with contents `o`. -/
def newObj (s : Machine T) (o : Obj) : Nat × Machine T :=
  (s.objs.length, { s with objs := s.objs ++ [some o] })

/-- Overwrite the data members of object `i`. -/
def setObj (s : Machine T) (i : Nat) (o : Obj) : Machine T :=
  { s with objs := s.objs.set i (some o) }

/-- End the lifetime of object `i`. -/
def endObj (s : Machine T) (i : Nat) : Machine T :=
  { s with objs := s.objs.set i none }

/-- Live object `i` has `ptr_` pointing at cell `a`. -/
def holds (s : Machine T) (i : Nat) (a : Addr) : Prop :=
  s.obj i = some { ptr_ := some a }

instance (s : Machine T) (i : Nat) (a : Addr) : Decidable (s.holds i a) := by
  unfold holds; infer_instance

end Machine

/-! ## `Pointer<T>` (s24_my_ptr.cpp) -/

namespace Pointer

variable {T : Type}

/-- Constructor `Pointer()`. -/
def ctor [Zero T] [ToString T] (s : Machine T) : Option (Nat × Machine T) :=
  let (a, h1) := s.heap.alloc
  match h1.write a 0 with
  | none => none
  | some h2 =>
    match h2.read a with
    | none => none
    | some v =>
      some (Machine.newObj
        { s with heap := h2, out := s.out ++ ["New object on the heap: " ++ toString v] }
        { ptr_ := some a })

/-- Constructor `Pointer(T val)`. -/
def ctorVal [ToString T] (s : Machine T) (val : T) : Option (Nat × Machine T) :=
  let (a, h1) := s.heap.alloc
  match h1.write a val with
  | none => none
  | some h2 =>
    some (Machine.newObj
      { s with heap := h2, out := s.out ++ ["New object on the heap: " ++ toString val] }
      { ptr_ := some a })

/-- Destructor `~Pointer()` of object `p`. -/
def dtor [ToString T] (s : Machine T) (p : Nat) : Option (Machine T) :=
  match s.obj p with
  | none => none
  | some o =>
    match o.ptr_ with
    | none => some (s.endObj p)
    | some a =>
      match s.heap.read a with
      | none => none
      | some v =>
        some (Machine.endObj
          { s with heap := s.heap.delete a, out := s.out ++ ["Freed: " ++ toString v] } p)

/-- Move constructor `Pointer(Pointer &&another)`; returns the new object. -/
def moveCtor (s : Machine T) (another : Nat) : Option (Nat × Machine T) :=
  match s.obj another with
  | none => none
  | some o =>
    let (d, s1) := s.newObj { ptr_ := o.ptr_ }
    some (d, s1.setObj another { ptr_ := none })

/-- Move assignment `operator=(Pointer &&another)` on object `this`. -/
def moveAssign (s : Machine T) (this another : Nat) : Option (Machine T) :=
  match s.obj this, s.obj another with
  | some t, some o =>
    if t.ptr_ = o.ptr_ then some s
    else
      let h := match t.ptr_ with
        | some a => s.heap.delete a
        | none => s.heap
      let s1 := Machine.setObj { s with heap := h } this { ptr_ := o.ptr_ }
      some (s1.setObj another { ptr_ := none })
  | _, _ => none

/-- Member `operator*()`: the cell the returned reference is bound to. -/
def deref (s : Machine T) (p : Nat) : Option Addr :=
  match s.obj p with
  | some o => o.ptr_
  | none => none

/-- Member `get_val()`. -/
def get_val (s : Machine T) (p : Nat) : Option T :=
  match s.obj p with
  | some { ptr_ := some a } => s.heap.read a
  | _ => none

/-- Member `set_val(val)`. -/
def set_val (s : Machine T) (p : Nat) (val : T) : Option (Machine T) :=
  match s.obj p with
  | some { ptr_ := some a } =>
    match s.heap.write a val with
    | some h => some { s with heap := h }
    | none => none
  | _ => none

/-- Expression `*p` read as a value. -/
def derefRead (s : Machine T) (p : Nat) : Option T :=
  match deref s p with
  | some a => s.heap.read a
  | none => none

/-- Statement `*p = val`. -/
def derefWrite (s : Machine T) (p : Nat) (val : T) : Option (Machine T) :=
  match deref s p with
  | some a =>
    match s.heap.write a val with
    | some h => some { s with heap := h }
    | none => none
  | none => none

/-- Function `smart_generator(init)`: the local `p` is constructed, the
returned object is move-constructed from it, then `p` is destroyed. -/
def smart_generator [ToString T] (s : Machine T) (init : T) : Option (Nat × Machine T) :=
  match ctorVal s init with
  | none => none
  | some (p, s1) =>
    match moveCtor s1 p with
    | none => none
    | some (r, s2) =>
      match dtor s2 p with
      | none => none
      | some s3 => some (r, s3)

end Pointer

/-! ## `IntPtrManager` (wrapper_class.cpp) -/

namespace IntPtrManager

/-- Constructor `IntPtrManager()`. -/
def ctor (s : Machine Int) : Option (Nat × Machine Int) :=
  let (a, h1) := s.heap.alloc
  match h1.write a 0 with
  | none => none
  | some h2 => some (Machine.newObj { s with heap := h2 } { ptr_ := some a })

/-- Constructor `IntPtrManager(int val)`. -/
def ctorVal (s : Machine Int) (val : Int) : Option (Nat × Machine Int) :=
  let (a, h1) := s.heap.alloc
  match h1.write a val with
  | none => none
  | some h2 => some (Machine.newObj { s with heap := h2 } { ptr_ := some a })

/-- Destructor `~IntPtrManager()` of object `p`. -/
def dtor (s : Machine Int) (p : Nat) : Option (Machine Int) :=
  match s.obj p with
  | none => none
  | some o =>
    match o.ptr_ with
    | none => some (s.endObj p)
    | some a => some (Machine.endObj { s with heap := s.heap.delete a } p)

/-- Move constructor `IntPtrManager(IntPtrManager &&other)`. -/
def moveCtor (s : Machine Int) (other : Nat) : Option (Nat × Machine Int) :=
  match s.obj other with
  | none => none
  | some o =>
    let (d, s1) := s.newObj { ptr_ := o.ptr_ }
    some (d, s1.setObj other { ptr_ := none })

/-- Move assignment `operator=(IntPtrManager &&other)` on object `this`. -/
def moveAssign (s : Machine Int) (this other : Nat) : Option (Machine Int) :=
  match s.obj this, s.obj other with
  | some t, some o =>
    if t.ptr_ = o.ptr_ then some s
    else
      let h := match t.ptr_ with
        | some a => s.heap.delete a
        | none => s.heap
      let s1 := Machine.setObj { s with heap := h } this { ptr_ := o.ptr_ }
      some (s1.setObj other { ptr_ := none })
  | _, _ => none

/-- Member `SetVal(val)`. -/
def SetVal (s : Machine Int) (p : Nat) (val : Int) : Option (Machine Int) :=
  match s.obj p with
  | some { ptr_ := some a } =>
    match s.heap.write a val with
    | some h => some { s with heap := h }
    | none => none
  | _ => none

/-- Member `GetVal()`. -/
def GetVal (s : Machine Int) (p : Nat) : Option Int :=
  match s.obj p with
  | some { ptr_ := some a } => s.heap.read a
  | _ => none

end IntPtrManager

/-! ## Programs over `Pointer<T>` and `IntPtrManager` -/

namespace Pointer

variable {T : Type}

/-- One use of the public interface of `Pointer<T>`; the copy constructor and
the copy assignment operator are deleted, so they are no operation. -/
inductive Op (T : Type) where
  | ctor : Op T
  | ctorVal (val : T) : Op T
  | moveCtor (another : Nat) : Op T
  | moveAssign (this another : Nat) : Op T
  | set_val (p : Nat) (val : T) : Op T
  | get_val (p : Nat) : Op T
  | derefWrite (p : Nat) (val : T) : Op T
  | derefRead (p : Nat) : Op T
  | dtor (p : Nat) : Op T

/-- Effect of one operation on the program state. -/
def step [Zero T] [ToString T] (s : Machine T) : Op T → Option (Machine T)
  | Op.ctor => (ctor s).map Prod.snd
  | Op.ctorVal val => (ctorVal s val).map Prod.snd
  | Op.moveCtor another => (moveCtor s another).map Prod.snd
  | Op.moveAssign this another => moveAssign s this another
  | Op.set_val p val => set_val s p val
  | Op.get_val p => (get_val s p).map (fun _ => s)
  | Op.derefWrite p val => derefWrite s p val
  | Op.derefRead p => (derefRead s p).map (fun _ => s)
  | Op.dtor p => dtor s p

/-- Effect of a sequence of operations. -/
def run [Zero T] [ToString T] (s : Machine T) : List (Op T) → Option (Machine T)
  | [] => some s
  | op :: ops =>
    match step s op with
    | some s1 => run s1 ops
    | none => none

end Pointer

namespace IntPtrManager

/-- One use of the public interface of `IntPtrManager`. -/
inductive Op where
  | ctor : Op
  | ctorVal (val : Int) : Op
  | moveCtor (other : Nat) : Op
  | moveAssign (this other : Nat) : Op
  | SetVal (p : Nat) (val : Int) : Op
  | GetVal (p : Nat) : Op
  | dtor (p : Nat) : Op

/-- Effect of one operation on the program state. -/
def step (s : Machine Int) : Op → Option (Machine Int)
  | Op.ctor => (ctor s).map Prod.snd
  | Op.ctorVal val => (ctorVal s val).map Prod.snd
  | Op.moveCtor other => (moveCtor s other).map Prod.snd
  | Op.moveAssign this other => moveAssign s this other
  | Op.SetVal p val => SetVal s p val
  | Op.GetVal p => (GetVal s p).map (fun _ => s)
  | Op.dtor p => dtor s p

/-- Effect of a sequence of operations. -/
def run (s : Machine Int) : List Op → Option (Machine Int)
  | [] => some s
  | op :: ops =>
    match step s op with
    | some s1 => run s1 ops
    | none => none

end IntPtrManager

/-! ## `Node`, `DLLIterator`, `DLL` (iterator.cpp) -/

/-- Struct `Node`. -/
structure Node where
  next_ : Option Addr
  prev_ : Option Addr
  value_ : Int
deriving DecidableEq, Repr

/-- Constructor `Node(int val)`. -/
def Node.new (val : Int) : Node := { next_ := none, prev_ := none, value_ := val }

/-- Heap of `Node` objects; a node is named by its allocation index. -/
abbrev NodeHeap := List Node

/-- Width in bits of `size_t` and of a pointer. -/
def SIZE_BITS : Nat := 64

/-- Number of nodes that can exist at once: live nodes have distinct non-null
addresses of `SIZE_BITS` bits.  `new Node` throws `std::bad_alloc` beyond it. -/
def maxNodes : Nat := 2 ^ SIZE_BITS - 1

/-- Assignment to a member of the node at `a` (`none` when `a` is no node). -/
def NodeHeap.update (m : NodeHeap) (a : Addr) (f : Node → Node) : Option NodeHeap :=
  match m[a]? with
  | some n => some (m.set a (f n))
  | none => none

/-- Class `DLLIterator`. -/
structure DLLIterator where
  curr_ : Option Addr
deriving DecidableEq, Repr

namespace DLLIterator

/-- Prefix increment `++iter`: `curr_ = curr_->next_`. -/
def inc (m : NodeHeap) (it : DLLIterator) : Option DLLIterator :=
  match it.curr_ with
  | some a =>
    match m[a]? with
    | some n => some { curr_ := n.next_ }
    | none => none
  | none => none

/-- Increment `iter++`: returns the saved copy and the advanced iterator. -/
def incPost (m : NodeHeap) (it : DLLIterator) : Option (DLLIterator × DLLIterator) :=
  let temp := it
  match inc m it with
  | some it1 => some (temp, it1)
  | none => none

/-- Member `operator==`. -/
def eq (this itr : DLLIterator) : Bool := itr.curr_ == this.curr_

/-- Member `operator!=`. -/
def ne (this itr : DLLIterator) : Bool := itr.curr_ != this.curr_

/-- Member `operator*`: `curr_->value_`. -/
def star (m : NodeHeap) (it : DLLIterator) : Option Int :=
  match it.curr_ with
  | some a =>
    match m[a]? with
    | some n => some n.value_
    | none => none
  | none => none

end DLLIterator

/-- Class `DLL`: its data members. -/
structure DLL where
  head_ : Option Addr
  size_ : Nat
deriving DecidableEq, Repr

namespace DLL

/-- Constructor `DLL()`. -/
def new : DLL := { head_ := none, size_ := 0 }

/-- Member `InsertAtHead(val)`; `none` when `new Node` throws or when `head_`
is not the address of a node. -/
def InsertAtHead (m : NodeHeap) (d : DLL) (val : Int) : Option (NodeHeap × DLL) :=
  if m.length < maxNodes then
    let new_node := m.length
    let m1 := m ++ [Node.new val]
    match m1.update new_node (fun n => { n with next_ := d.head_ }) with
    | none => none
    | some m2 =>
      let m3 := match d.head_ with
        | some h => m2.update h (fun n => { n with prev_ := some new_node })
        | none => some m2
      match m3 with
      | none => none
      | some m4 => some (m4, { head_ := some new_node, size_ := (d.size_ + 1) % 2 ^ SIZE_BITS })
  else none

/-- Member `Begin()`. -/
def Begin (d : DLL) : DLLIterator := { curr_ := d.head_ }

/-- Member `End()`. -/
def End (_d : DLL) : DLLIterator := { curr_ := none }

/-- The loop `for (iter = from; iter != stop; ++iter) visit(*iter)`: the values
visited, `none` when the fuel runs out or a step is undefined. -/
def visitFrom (m : NodeHeap) (stop : DLLIterator) : Nat → DLLIterator → Option (List Int)
  | 0, _ => none
  | fuel + 1, it =>
    if it.ne stop then
      match it.star m with
      | none => none
      | some v =>
        match it.inc m with
        | none => none
        | some it1 =>
          match visitFrom m stop fuel it1 with
          | none => none
          | some rest => some (v :: rest)
    else some []

/-- Values visited by iterating `d` from `Begin()` to `End()`. -/
def visit (m : NodeHeap) (d : DLL) (fuel : Nat) : Option (List Int) :=
  visitFrom m d.End fuel d.Begin

/-- Successive `InsertAtHead` calls, in the order of the list. -/
def insertAll (m : NodeHeap) (d : DLL) : List Int → Option (NodeHeap × DLL)
  | [] => some (m, d)
  | v :: vs =>
    match InsertAtHead m d v with
    | some (m1, d1) => insertAll m1 d1 vs
    | none => none

/-- What `std::cout << *iter << " "` writes over a loop visiting `xs`. -/
def printed (xs : List Int) : String :=
  xs.foldl (fun acc v => acc ++ toString v ++ " ") ""

end DLL

/-! ## Ownership invariant -/

/-- Ownership discipline of a program state: every held cell contains a value,
no cell is held by two live objects, no held cell was ever deleted, and no cell
was deleted twice. -/
structure Inv {T : Type} (s : Machine T) : Prop where
  valued : ∀ i a, s.holds i a → ∃ v, s.heap.read a = some v
  unique : ∀ i j a, s.holds i a → s.holds j a → i = j
  notFreed : ∀ i a, s.holds i a → a ∉ s.heap.freed
  nodup : s.heap.freed.Nodup
  freedLt : ∀ a, a ∈ s.heap.freed → a < s.heap.cells.length

/-! ## Abstraction of a linked chain of nodes -/

/-- The nodes reached from pointer `p` by following `next_` hold exactly the
values `xs`, in order, and the chain ends in `nullptr`. -/
def Repr (m : NodeHeap) : Option Addr → List Int → Prop
  | none, [] => True
  | some a, v :: xs => ∃ n, m[a]? = some n ∧ n.value_ = v ∧ Repr m n.next_ xs
  | none, _ :: _ => False
  | some _, [] => False

/-- Representation invariant of a `DLL` object `d` in heap `m`: the chain from
`head_` holds the values `xs`, `size_` is their number, and the chain has no
more nodes than the heap. -/
structure DLL.WF (m : NodeHeap) (d : DLL) (xs : List Int) : Prop where
  chain : Repr m d.head_ xs
  size : d.size_ = xs.length
  bound : xs.length ≤ m.length

/-- Heap and list after `main` of iterator.cpp inserted 6, 5, 4, 3, 2, 1. -/
def demoNodes : NodeHeap :=
  [{ next_ := none, prev_ := some 1, value_ := 6 },
   { next_ := some 0, prev_ := some 2, value_ := 5 },
   { next_ := some 1, prev_ := some 3, value_ := 4 },
   { next_ := some 2, prev_ := some 4, value_ := 3 },
   { next_ := some 3, prev_ := some 5, value_ := 2 },
   { next_ := some 4, prev_ := none, value_ := 1 }]

/-- The `DLL` object of `main` after the six insertions. -/
def demoDLL : DLL := { head_ := some 5, size_ := 6 }

/-! ## Concrete states used to exercise the theorems -/

/-- State after `Pointer<int> p1(4);` run from program start. -/
def demoOne : Machine Int :=
  { heap := { cells := [Cell.value 4], freed := [] },
    objs := [some { ptr_ := some 0 }],
    out := ["New object on the heap: 4"] }

/-- State after `IntPtrManager a(445);` run from program start. -/
def demoMgr : Machine Int :=
  { heap := { cells := [Cell.value 445], freed := [] },
    objs := [some { ptr_ := some 0 }],
    out := [] }

/-- Two live owners: object 0 holds cell 0 (value 7), object 1 holds cell 1
(value 9). -/
def demoTwo : Machine Int :=
  { heap := { cells := [Cell.value 7, Cell.value 9], freed := [] },
    objs := [some { ptr_ := some 0 }, some { ptr_ := some 1 }],
    out := [] }

/-- The `Pointer<int>` statements of `main` in s24_my_ptr.cpp up to
`Pointer<int> p4 = std::move(p3);` (objects: 0 is `p1`, 1 is the local of
`smart_generator`, 2 is `p3`, 3 is `p4`). -/
def mainOps : List (Pointer.Op Int) :=
  [Pointer.Op.ctorVal 4, Pointer.Op.get_val 0, Pointer.Op.set_val 0 10, Pointer.Op.get_val 0,
   Pointer.Op.ctorVal 2, Pointer.Op.moveCtor 1, Pointer.Op.dtor 1,
   Pointer.Op.set_val 2 10, Pointer.Op.moveCtor 2]

/-- State reached by `mainOps` from program start. -/
def mainState : Machine Int :=
  { heap := { cells := [Cell.value 10, Cell.value 10], freed := [] },
    objs := [some { ptr_ := some 0 }, none, some { ptr_ := none }, some { ptr_ := some 1 }],
    out := ["New object on the heap: 4", "New object on the heap: 2"] }

/-- The statements of `main` in wrapper_class.cpp (objects: 0 is `a`, 1 is
`b`), before the destructors run. -/
def mgrOps : List IntPtrManager.Op :=
  [IntPtrManager.Op.ctorVal 445, IntPtrManager.Op.GetVal 0, IntPtrManager.Op.SetVal 0 645,
   IntPtrManager.Op.GetVal 0, IntPtrManager.Op.moveCtor 0, IntPtrManager.Op.GetVal 1]

/-- State reached by `mgrOps` from program start. -/
def mgrState : Machine Int :=
  { heap := { cells := [Cell.value 645], freed := [] },
    objs := [some { ptr_ := none }, some { ptr_ := some 0 }],
    out := [] }


/-! ## Iterator positions and the second loop of `main` (iterator.cpp) -/

/-- The iterator after `k` increments `++it`. -/
def DLLIterator.advance (m : NodeHeap) : Nat → DLLIterator → Option DLLIterator
  | 0, it => some it
  | k + 1, it =>
    match it.inc m with
    | some it1 => advance m k it1
    | none => none

/-- The `k`-th node counted from the node at `p` (0-based), found by following
the `next_` members; used to say which node an iterator should stand on. -/
def kthNode (m : NodeHeap) : Nat → Option Addr → Option Node
  | 0, some a => m[a]?
  | k + 1, some a =>
    match m[a]? with
    | some n => kthNode m k n.next_
    | none => none
  | _, none => none

/-- The loop `for (iter = from; iter != stop; iter++) visit(*iter)`: the values
visited; the iterator returned by `iter++` is discarded. -/
def DLL.visitFromPost (m : NodeHeap) (stop : DLLIterator) :
    Nat → DLLIterator → Option (List Int)
  | 0, _ => none
  | fuel + 1, it =>
    if it.ne stop then
      match it.star m with
      | none => none
      | some v =>
        match it.incPost m with
        | none => none
        | some (_, it1) =>
          match visitFromPost m stop fuel it1 with
          | none => none
          | some rest => some (v :: rest)
    else some []

/-- Values visited by the second loop of `main`, which uses `iter++`. -/
def DLL.visitPost (m : NodeHeap) (d : DLL) (fuel : Nat) : Option (List Int) :=
  DLL.visitFromPost m d.End fuel d.Begin

/-! ## `Person` (move_constructors.cpp) -/

/-- Class `Person`: its data members (`age_` is a `uint32_t`). -/
structure Person where
  age_ : Nat
  nicknames_ : List String
  valid_ : Bool
deriving DecidableEq

/-- Program state of move_constructors.cpp: the `Person` objects created so far
(position = identity of the object) and the text written to `std::cout`. -/
structure PersonState where
  objs : List Person
  out : String
deriving DecidableEq

namespace PersonState

/-- State at program start. -/
def init : PersonState := { objs := [], out := "" }

/-- Assignment to members of object `i` (`none` when there is no such object). -/
def update (w : PersonState) (i : Nat) (f : Person → Person) : Option PersonState :=
  match w.objs[i]? with
  | some p => some { w with objs := w.objs.set i (f p) }
  | none => none

/-- Start the lifetime of a new object with contents `p`. -/
def push (w : PersonState) (p : Person) : Nat × PersonState :=
  (w.objs.length, { w with objs := w.objs ++ [p] })

/-- Append text to `std::cout`. -/
def print (w : PersonState) (text : String) : PersonState :=
  { w with out := w.out ++ text }

end PersonState

namespace Person

/-- Constructor `Person()`. -/
def ctor (w : PersonState) : Nat × PersonState :=
  w.push { age_ := 0, nicknames_ := [], valid_ := true }

/-- Constructor `Person(uint32_t age, std::vector<std::string> &&nicknames)`;
the argument `age` is converted to `uint32_t`. -/
def ctorVal (w : PersonState) (age : Nat) (nicknames : List String) : Nat × PersonState :=
  w.push { age_ := age % 2 ^ 32, nicknames_ := nicknames, valid_ := true }

/-- Move constructor `Person(Person &&person)`.  The member initialisers read
`person.age_` and move `person.nicknames_`, which leaves that vector empty;
the body prints and clears `person.valid_`. -/
def moveCtor (w : PersonState) (person : Nat) : Option (Nat × PersonState) :=
  match w.objs[person]? with
  | none => none
  | some p =>
    match w.update person (fun q => { q with nicknames_ := [] }) with
    | none => none
    | some w1 =>
      let (this, w2) := w1.push { age_ := p.age_, nicknames_ := p.nicknames_, valid_ := true }
      let w3 := w2.print "Calling the move constructor for class Person.\n"
      match w3.update person (fun q => { q with valid_ := false }) with
      | none => none
      | some w4 => some (this, w4)

/-- Move assignment `operator=(Person &&other)` on object `this`, statement by
statement.  A vector that was move-assigned from is in a valid but unspecified
state: `rest` is what it then holds. -/
def moveAssign (w : PersonState) (this other : Nat) (rest : List String) :
    Option PersonState :=
  let w0 := w.print "Calling the move assignment operator for class Person.\n"
  match w0.objs[other]? with
  | none => none
  | some o =>
    -- age_ = other.age_;
    match w0.update this (fun q => { q with age_ := o.age_ }) with
    | none => none
    | some w1 =>
      -- nicknames_ = std::move(other.nicknames_);
      match w1.update this (fun q => { q with nicknames_ := o.nicknames_ }) with
      | none => none
      | some w2 =>
        match w2.update other (fun q => { q with nicknames_ := rest }) with
        | none => none
        | some w3 =>
          -- valid_ = true;
          match w3.update this (fun q => { q with valid_ := true }) with
          | none => none
          | some w4 =>
            -- other.valid_ = false;
            w4.update other (fun q => { q with valid_ := false })

/-- Member `GetAge()`. -/
def GetAge (w : PersonState) (p : Nat) : Option Nat :=
  match w.objs[p]? with
  | some q => some q.age_
  | none => none

/-- Member `GetNicknameAtI(i)`: `nicknames_[i]`, undefined out of range. -/
def GetNicknameAtI (w : PersonState) (p : Nat) (i : Nat) : Option String :=
  match w.objs[p]? with
  | some q => q.nicknames_[i]?
  | none => none

/-- Member `PrintValid()`. -/
def PrintValid (w : PersonState) (p : Nat) : Option PersonState :=
  match w.objs[p]? with
  | some q =>
    if q.valid_ then some (w.print "Object is valid.\n")
    else some (w.print "Object is invalid.\n")
  | none => none

/-- The `Person` operations of `main`: `andy` is object 0, `andy1` object 1,
`andy2` object 2.  The labels `main` prints before each `PrintValid()` are left
out. -/
def mainRun (rest : List String) : Option PersonState :=
  let (andy, w1) := ctorVal PersonState.init 15445 ["andy", "pavlo"]
  match PrintValid w1 andy with
  | none => none
  | some w2 =>
    let (andy1, w3) := ctor w2
    match moveAssign w3 andy1 andy rest with
    | none => none
    | some w4 =>
      match PrintValid w4 andy1 with
      | none => none
      | some w5 =>
        match PrintValid w5 andy with
        | none => none
        | some w6 =>
          match moveCtor w6 andy1 with
          | none => none
          | some (andy2, w7) =>
            match PrintValid w7 andy2 with
            | none => none
            | some w8 => PrintValid w8 andy1

end Person

/-! ## `add_three_and_print` (move_semantics.cpp) -/

/-- Function `add_three_and_print(std::vector<int> &&vec)`: `vec` is the vector
the reference is bound to, `out` the text on `std::cout` so far; returns that
vector and the text after the call. -/
def add_three_and_print (vec : List Int) (out : String) : List Int × String :=
  let vec1 := vec ++ [3]
  let out1 := vec1.foldl (fun acc item => acc ++ toString item ++ " ") out
  (vec1, out1 ++ "\n")

/-- The text made of the elements of `xs` in order, each followed by a space. -/
def spaced (xs : List Int) : String :=
  match xs with
  | [] => ""
  | x :: rest => toString x ++ " " ++ spaced rest

/-- State of `main` in move_constructors.cpp after `andy` (object 0) and `andy1`
(object 1) were constructed. -/
def demoPeople : PersonState :=
  { objs := [{ age_ := 15445, nicknames_ := ["andy", "pavlo"], valid_ := true },
             { age_ := 0, nicknames_ := [], valid_ := true }],
    out := "Object is valid.\n" }

/-- State of a program in which `Person andy(15445, {"andy", "pavlo"});` is the
only `Person` object (object 0). -/
def demoSolo : PersonState :=
  { objs := [{ age_ := 15445, nicknames_ := ["andy", "pavlo"], valid_ := true }],
    out := "" }

/-! ## Threads and `std::mutex` (mutex.cpp, scoped_lock.cpp)

Threads are interleaved one atomic action at a time.  The statement
`count += 1` is two actions, a read of `count` and a write of the value read
plus one, so that an increment can be lost when nothing excludes the other
thread. -/

/-- Names of the threads created by `main`. -/
inductive Tid where
  | t1 : Tid
  | t2 : Tid
  | t3 : Tid
deriving DecidableEq

/-- A thread running `add_count` (or `add_count_and_notify`): the number of
actions it has executed and the value its `count += 1` has read. -/
structure Worker where
  pc : Nat
  reg : Int
deriving DecidableEq

/-- Shared state of mutex.cpp and of scoped_lock.cpp: the global `count`, the
holder of the mutex `m`, and the two threads. -/
structure CountState where
  count : Int
  m : Option Tid
  t1 : Worker
  t2 : Worker
deriving DecidableEq

namespace MutexCpp

/-- Function `add_count` of mutex.cpp run by thread `me`, one action per call:
`m.lock()` (not enabled while `m` is held), the read and the write of
`count += 1`, `m.unlock()`.  `none`: the thread cannot move. -/
def add_count (me : Tid) (count : Int) (m : Option Tid) (th : Worker) :
    Option (Int × Option Tid × Worker) :=
  match th.pc with
  | 0 => if m = none then some (count, some me, { th with pc := 1 }) else none
  | 1 => some (count, m, { pc := 2, reg := count })
  | 2 => some (th.reg + 1, m, { th with pc := 3 })
  | 3 => if m = some me then some (count, none, { th with pc := 4 }) else none
  | _ => none

end MutexCpp

namespace ScopedLockCpp

/-- Function `add_count` of scoped_lock.cpp run by thread `me`, one action per
call: the constructor of `slk` locks `m`, the read and the write of
`count += 1`, the destructor of `slk` unlocks `m`. -/
def add_count (me : Tid) (count : Int) (m : Option Tid) (th : Worker) :
    Option (Int × Option Tid × Worker) :=
  match th.pc with
  | 0 => if m = none then some (count, some me, { th with pc := 1 }) else none
  | 1 => some (count, m, { pc := 2, reg := count })
  | 2 => some (th.reg + 1, m, { th with pc := 3 })
  | 3 => if m = some me then some (count, none, { th with pc := 4 }) else none
  | _ => none

end ScopedLockCpp

namespace CountState

/-- State when `main` starts: `count = 0`, `m` free, no thread has moved. -/
def init : CountState :=
  { count := 0, m := none, t1 := { pc := 0, reg := 0 }, t2 := { pc := 0, reg := 0 } }

/-- One action of thread `t`, both threads running `body`; `none` when `t`
cannot move (blocked, returned, or not a thread of this program). -/
def step (body : Tid → Int → Option Tid → Worker → Option (Int × Option Tid × Worker))
    (s : CountState) : Tid → Option CountState
  | Tid.t1 =>
    match body Tid.t1 s.count s.m s.t1 with
    | some (c, m, th) => some { s with count := c, m := m, t1 := th }
    | none => none
  | Tid.t2 =>
    match body Tid.t2 s.count s.m s.t2 with
    | some (c, m, th) => some { s with count := c, m := m, t2 := th }
    | none => none
  | Tid.t3 => none

/-- The state after the interleaving `sched`; a thread that cannot move when it
is scheduled is passed over. -/
def run (body : Tid → Int → Option Tid → Worker → Option (Int × Option Tid × Worker))
    (s : CountState) : List Tid → CountState
  | [] => s
  | t :: ts =>
    match step body s t with
    | some s1 => run body s1 ts
    | none => run body s ts

/-- Both threads have returned, so `t1.join()` and `t2.join()` return. -/
def joined (s : CountState) : Bool := s.t1.pc == 4 && s.t2.pc == 4

/-- Function `main` under the interleaving `sched`: the line it prints once both
joins have returned, `none` while a join is still waiting. -/
def main (body : Tid → Int → Option Tid → Worker → Option (Int × Option Tid × Worker))
    (sched : List Tid) : Option String :=
  let s := run body init sched
  if s.joined then some ("Printing count: " ++ toString s.count) else none

/-- Invariant of the two-thread programs: positions are in range, `m` is held
exactly by a thread between its lock and its unlock, a thread that has read
`count` and not yet written holds the current value, and `count` is the number
of threads that have written. -/
structure Inv (s : CountState) : Prop where
  pc1 : s.t1.pc ≤ 4
  pc2 : s.t2.pc ≤ 4
  own1 : s.m = some Tid.t1 ↔ 1 ≤ s.t1.pc ∧ s.t1.pc ≤ 3
  own2 : s.m = some Tid.t2 ↔ 1 ≤ s.t2.pc ∧ s.t2.pc ≤ 3
  own3 : s.m ≠ some Tid.t3
  reg1 : s.t1.pc = 2 → s.t1.reg = s.count
  reg2 : s.t2.pc = 2 → s.t2.reg = s.count
  cnt : s.count = (if 3 ≤ s.t1.pc then 1 else 0) + (if 3 ≤ s.t2.pc then 1 else 0)

end CountState

/-! ## Threads and `std::condition_variable` (condition_variable.cpp) -/

/-- Shared state of condition_variable.cpp: the global `count`, the holder of
the mutex `m`, whether a `notify_one` has reached the waiter blocked on `cv`,
the two threads running `add_count_and_notify`, the position of the thread
running `waiter_thread`, and the lines written to `std::cout` by the three
threads. -/
structure CvState where
  count : Int
  m : Option Tid
  notified : Bool
  t1 : Worker
  t2 : Worker
  t3 : Nat
  out : List String
deriving DecidableEq

/-- What the scheduler can do: let a thread execute its next action, or wake
the waiter spuriously (which `std::condition_variable` permits). -/
inductive CvEvent where
  | run (t : Tid) : CvEvent
  | spurious : CvEvent
deriving DecidableEq

namespace CvState

/-- State when `main` starts. -/
def init : CvState :=
  { count := 0, m := none, notified := false,
    t1 := { pc := 0, reg := 0 }, t2 := { pc := 0, reg := 0 }, t3 := 0, out := [] }

/-- Function `add_count_and_notify` run by thread `me` (whose own state is
`th`), one action per call: the constructor of `slk` locks `m`; the read and
the write of `count += 1`; the print; `if (count == 2) cv.notify_one()`, which
reaches the waiter when it is blocked in `cv.wait`; the destructor of `slk`
unlocks `m`. -/
def add_count_and_notify (me : Tid) (s : CvState) (th : Worker) : Option (CvState × Worker) :=
  match th.pc with
  | 0 => if s.m = none then some ({ s with m := some me }, { th with pc := 1 }) else none
  | 1 => some (s, { pc := 2, reg := s.count })
  | 2 => some ({ s with count := th.reg + 1 }, { th with pc := 3 })
  | 3 => some ({ s with out := s.out ++ ["count+1!"] }, { th with pc := 4 })
  | 4 =>
    if s.count = 2 then
      some ({ s with notified := s.notified || (s.t3 == 2) }, { th with pc := 5 })
    else some (s, { th with pc := 5 })
  | 5 => if s.m = some me then some ({ s with m := none }, { th with pc := 6 }) else none
  | _ => none

/-- Function `waiter_thread`, run by thread `t3`, one action per call.
Position 0: the constructor of `lk` locks `m`.  Position 1: `cv.wait`
evaluates `count == 2`; when true the wait is over (position 4), otherwise `m`
is released and the thread blocks (position 2), atomically.  Position 2:
blocked until notified.  Position 3: `m` is locked again and the predicate is
evaluated again.  Position 4: the print.  Position 5: the destructor of `lk`
unlocks `m`. -/
def waiter_thread (s : CvState) : Option CvState :=
  match s.t3 with
  | 0 => if s.m = none then some { s with m := some Tid.t3, t3 := 1 } else none
  | 1 =>
    if s.count = 2 then some { s with t3 := 4 }
    else some { s with m := none, t3 := 2 }
  | 2 => if s.notified then some { s with notified := false, t3 := 3 } else none
  | 3 => if s.m = none then some { s with m := some Tid.t3, t3 := 1 } else none
  | 4 => some { s with out := s.out ++ ["Printing count: " ++ toString s.count], t3 := 5 }
  | 5 => if s.m = some Tid.t3 then some { s with m := none, t3 := 6 } else none
  | _ => none

/-- One event; `none` when it is not enabled. -/
def step (s : CvState) : CvEvent → Option CvState
  | CvEvent.run Tid.t1 =>
    match add_count_and_notify Tid.t1 s s.t1 with
    | some (s1, th) => some { s1 with t1 := th }
    | none => none
  | CvEvent.run Tid.t2 =>
    match add_count_and_notify Tid.t2 s s.t2 with
    | some (s1, th) => some { s1 with t2 := th }
    | none => none
  | CvEvent.run Tid.t3 => waiter_thread s
  | CvEvent.spurious => if s.t3 = 2 then some { s with notified := false, t3 := 3 } else none

/-- The state after the events `es`; an event that is not enabled is passed
over. -/
def run (s : CvState) : List CvEvent → CvState
  | [] => s
  | e :: es =>
    match step s e with
    | some s1 => run s1 es
    | none => run s es

/-- All three threads have returned. -/
def joined (s : CvState) : Bool := s.t1.pc == 6 && s.t2.pc == 6 && s.t3 == 6

/-- Invariant of condition_variable.cpp. -/
structure Inv (s : CvState) : Prop where
  pc1 : s.t1.pc ≤ 6
  pc2 : s.t2.pc ≤ 6
  pc3 : s.t3 ≤ 6
  own1 : s.m = some Tid.t1 ↔ 1 ≤ s.t1.pc ∧ s.t1.pc ≤ 5
  own2 : s.m = some Tid.t2 ↔ 1 ≤ s.t2.pc ∧ s.t2.pc ≤ 5
  own3 : s.m = some Tid.t3 ↔ s.t3 = 1 ∨ s.t3 = 4 ∨ s.t3 = 5
  reg1 : s.t1.pc = 2 → s.t1.reg = s.count
  reg2 : s.t2.pc = 2 → s.t2.reg = s.count
  cnt : s.count = (if 3 ≤ s.t1.pc then 1 else 0) + (if 3 ≤ s.t2.pc then 1 else 0)
  past : 4 ≤ s.t3 → s.count = 2
  lines : ∀ l, l ∈ s.out → l = "count+1!" ∨ l = "Printing count: 2"

end CvState

/-- End state of condition_variable.cpp when the waiter blocks first, `t1` and
`t2` then run in that order, and the waiter is woken by the notification. -/
def demoCvEnd : CvState :=
  { count := 2, m := none, notified := false,
    t1 := { pc := 6, reg := 0 }, t2 := { pc := 6, reg := 1 }, t3 := 6,
    out := ["count+1!", "count+1!", "Printing count: 2"] }

/-- The interleaving that ends in `demoCvEnd`. -/
def demoCvSched : List CvEvent :=
  [CvEvent.run Tid.t3, CvEvent.run Tid.t3,
   CvEvent.run Tid.t1, CvEvent.run Tid.t1, CvEvent.run Tid.t1,
   CvEvent.run Tid.t1, CvEvent.run Tid.t1, CvEvent.run Tid.t1,
   CvEvent.run Tid.t2, CvEvent.run Tid.t2, CvEvent.run Tid.t2,
   CvEvent.run Tid.t2, CvEvent.run Tid.t2, CvEvent.run Tid.t2,
   CvEvent.run Tid.t3, CvEvent.run Tid.t3, CvEvent.run Tid.t3,
   CvEvent.run Tid.t3, CvEvent.run Tid.t3]

/-! ## Basic facts about the object table and the heap -/

namespace Machine

variable {T : Type}

theorem obj_lt {s : Machine T} {i : Nat} {o : Obj} (h : s.obj i = some o) :
    i < s.objs.length := by
  unfold obj at h
  by_contra hlt
  rw [List.getElem?_eq_none (by omega)] at h
  simp at h

theorem obj_length (s : Machine T) : s.obj s.objs.length = none := by
  simp [obj]

theorem obj_newObj (s : Machine T) (o : Obj) (i : Nat) :
    (s.newObj o).2.obj i = if i = s.objs.length then some o else s.obj i := by
  unfold newObj obj
  by_cases h : i = s.objs.length
  · subst h; simp
  · rcases Nat.lt_or_gt_of_ne h with h1 | h1
    · simp [h, List.getElem?_append_left h1]
    · have h2 : s.objs.length ≤ i := by omega
      have h3 : (s.objs ++ [some o]).length ≤ i := by simp; omega
      simp [h, List.getElem?_eq_none h2, List.getElem?_eq_none h3]

theorem obj_setObj (s : Machine T) (i j : Nat) (o : Obj) (hi : i < s.objs.length) :
    (s.setObj i o).obj j = if j = i then some o else s.obj j := by
  unfold setObj obj
  by_cases h : j = i
  · subst h; simp [List.getElem?_set_self, hi]
  · have h1 : i ≠ j := fun e => h e.symm
    simp [h, List.getElem?_set_ne h1]

theorem obj_endObj (s : Machine T) (i j : Nat) :
    (s.endObj i).obj j = if j = i then none else s.obj j := by
  unfold endObj obj
  by_cases h : j = i
  · subst h
    by_cases hj : j < s.objs.length
    · simp [List.getElem?_set_self, hj]
    · have h2 : (s.objs.set j none).length ≤ j := by simp; omega
      simp [List.getElem?_eq_none h2]
  · have h1 : i ≠ j := fun e => h e.symm
    simp [h, List.getElem?_set_ne h1]

end Machine

namespace Heap

variable {T : Type}

theorem write_spec {h h2 : Heap T} {a : Addr} {v : T} (hw : h.write a v = some h2) :
    h2.cells = h.cells.set a (Cell.value v) ∧ h2.freed = h.freed ∧
      a < h.cells.length ∧ h.cells[a]? ≠ some Cell.deleted := by
  unfold write at hw
  have hlt : a < h.cells.length := by
    by_contra hlt
    rw [List.getElem?_eq_none (Nat.le_of_not_lt hlt)] at hw
    simp at hw
  split at hw
  · rename_i heq
    simp only [Option.some.injEq] at hw
    subst hw
    simp [heq, hlt]
  · rename_i heq
    simp only [Option.some.injEq] at hw
    subst hw
    simp [heq, hlt]
  · simp at hw

theorem read_write_same {h h2 : Heap T} {a : Addr} {v : T} (hw : h.write a v = some h2) :
    h2.read a = some v := by
  obtain ⟨hc, -, hlt, -⟩ := write_spec hw
  simp [read, hc, List.getElem?_set_self, hlt]

theorem read_write_other {h h2 : Heap T} {a b : Addr} {v : T} (hw : h.write a v = some h2)
    (hb : b ≠ a) : h2.cells[b]? = h.cells[b]? := by
  obtain ⟨hc, -, -, -⟩ := write_spec hw
  rw [hc, List.getElem?_set_ne (fun e => hb e.symm)]

theorem write_of_read {h : Heap T} {a : Addr} {w : T} (hr : h.read a = some w) (v : T) :
    ∃ h2, h.write a v = some h2 := by
  unfold read at hr
  unfold write
  split at hr
  · rename_i heq
    simp [heq]
  · simp at hr

theorem cells_delete_other (h : Heap T) {a b : Addr} (hb : b ≠ a) :
    (h.delete a).cells[b]? = h.cells[b]? := by
  simp [delete, List.getElem?_set_ne (fun e => hb e.symm)]

theorem read_lt {h : Heap T} {a : Addr} {v : T} (hr : h.read a = some v) :
    a < h.cells.length := by
  unfold read at hr
  by_contra hlt
  rw [List.getElem?_eq_none (Nat.le_of_not_lt hlt)] at hr
  simp at hr

end Heap

/-! ## Move construction and move assignment -/

namespace Pointer

variable {T : Type}

theorem moveCtor_eq {s : Machine T} {src : Nat} {o : Obj} (h : s.obj src = some o) :
    moveCtor s src =
      some (s.objs.length, (s.newObj { ptr_ := o.ptr_ }).2.setObj src { ptr_ := none }) := by
  simp [moveCtor, h, Machine.newObj]

theorem moveCtor_spec (s : Machine T) (src : Nat) (a : Addr) (v : T)
    (hs : s.holds src a) (hv : s.heap.read a = some v) :
    ∃ dst s1, moveCtor s src = some (dst, s1) ∧ s.obj dst = none ∧ s1.holds dst a ∧
      get_val s1 dst = some v ∧ s1.obj src = some { ptr_ := none } ∧ s1.heap = s.heap := by
  have hlt := Machine.obj_lt hs
  have hlt2 : src < (s.newObj { ptr_ := some a }).2.objs.length := by
    simp [Machine.newObj]; omega
  have hne : s.objs.length ≠ src := by omega
  refine ⟨_, _, moveCtor_eq hs, Machine.obj_length s, ?_, ?_, ?_, rfl⟩
  · simp [Machine.holds, Machine.obj_setObj _ _ _ _ hlt2, Machine.obj_newObj, hne]
  · have h1 : ((s.newObj { ptr_ := some a }).2.setObj src { ptr_ := none }).obj s.objs.length
        = some { ptr_ := some a } := by
      simp [Machine.obj_setObj _ _ _ _ hlt2, Machine.obj_newObj, hne]
    simp only [get_val, h1]
    exact hv
  · simp [Machine.obj_setObj _ _ _ _ hlt2]

end Pointer

namespace IntPtrManager

theorem moveCtor_eq_pointer (s : Machine Int) (other : Nat) :
    moveCtor s other = Pointer.moveCtor s other := rfl

theorem moveAssign_eq_pointer (s : Machine Int) (this other : Nat) :
    moveAssign s this other = Pointer.moveAssign s this other := rfl

theorem GetVal_eq_pointer (s : Machine Int) (p : Nat) :
    GetVal s p = Pointer.get_val s p := rfl

theorem SetVal_eq_pointer (s : Machine Int) (p : Nat) (val : Int) :
    SetVal s p val = Pointer.set_val s p val := by
  unfold SetVal Pointer.set_val
  rcases s.obj p with _ | ⟨_ | a⟩
  · rfl
  · rfl
  · dsimp only
    cases s.heap.write a val <;> rfl

end IntPtrManager

/-- C1: move-constructing `dst` from `std::move(src)`, where `src` holds a cell
`a` with value `v`, succeeds; `dst` is a new object that holds the same cell
`a`, so its getter returns `v`; `src.ptr_` is `nullptr`; the heap is exactly
what it was (no cell allocated, no value copied).  Stated for `Pointer<T>` and
for `IntPtrManager`. -/
theorem C1_move_construct {T : Type} (s : Machine T) (t : Machine Int) (src msrc : Nat)
    (a b : Addr) (v : T) (w : Int)
    (hs : s.holds src a) (hv : s.heap.read a = some v)
    (ht : t.holds msrc b) (hw : t.heap.read b = some w) :
    (∃ dst s1, Pointer.moveCtor s src = some (dst, s1) ∧ s.obj dst = none ∧
        s1.holds dst a ∧ Pointer.get_val s1 dst = some v ∧
        s1.obj src = some { ptr_ := none } ∧ s1.heap = s.heap) ∧
    (∃ dst t1, IntPtrManager.moveCtor t msrc = some (dst, t1) ∧ t.obj dst = none ∧
        t1.holds dst b ∧ IntPtrManager.GetVal t1 dst = some w ∧
        t1.obj msrc = some { ptr_ := none } ∧ t1.heap = t.heap) :=
  ⟨Pointer.moveCtor_spec s src a v hs hv, Pointer.moveCtor_spec t msrc b w ht hw⟩

/-- C1 at `Pointer<int> p1(4); Pointer<int> p2 = std::move(p1);` and at
`IntPtrManager a(445); IntPtrManager b(std::move(a));`. -/
theorem C1_move_construct_witness :
    (demoOne.holds 0 0 ∧ demoOne.heap.read 0 = some 4 ∧
      demoMgr.holds 0 0 ∧ demoMgr.heap.read 0 = some 445) ∧
    ((∃ dst s1, Pointer.moveCtor demoOne 0 = some (dst, s1) ∧ demoOne.obj dst = none ∧
        s1.holds dst 0 ∧ Pointer.get_val s1 dst = some 4 ∧
        s1.obj 0 = some { ptr_ := none } ∧ s1.heap = demoOne.heap) ∧
    (∃ dst t1, IntPtrManager.moveCtor demoMgr 0 = some (dst, t1) ∧ demoMgr.obj dst = none ∧
        t1.holds dst 0 ∧ IntPtrManager.GetVal t1 dst = some 445 ∧
        t1.obj 0 = some { ptr_ := none } ∧ t1.heap = demoMgr.heap)) :=
  ⟨by decide, C1_move_construct demoOne demoMgr 0 0 0 0 4 445
    (by decide) (by decide) (by decide) (by decide)⟩

namespace Pointer

variable {T : Type}

theorem moveAssign_spec (s : Machine T) (dst src : Nat) (d o : Obj)
    (hd : s.obj dst = some d) (ho : s.obj src = some o) (hne : d.ptr_ ≠ o.ptr_) :
    ∃ s1, moveAssign s dst src = some s1 ∧
      s1.obj dst = some { ptr_ := o.ptr_ } ∧
      s1.obj src = some { ptr_ := none } ∧
      (∀ a, d.ptr_ = some a → s1.heap.freed = a :: s.heap.freed) ∧
      (∀ a, d.ptr_ = some a → a < s.heap.cells.length →
        s1.heap.cells[a]? = some Cell.deleted) ∧
      (∀ c, d.ptr_ ≠ some c → s1.heap.cells[c]? = s.heap.cells[c]?) ∧
      (∀ c, o.ptr_ = some c → s1.heap.read c = s.heap.read c) ∧
      (d.ptr_ = none → s1.heap = s.heap) ∧
      (∀ k, k ≠ dst → k ≠ src → s1.obj k = s.obj k) ∧
      s1.out = s.out := by
  have hdl := Machine.obj_lt hd
  have hol := Machine.obj_lt ho
  have hds : dst ≠ src := by
    intro e
    subst e
    rw [hd] at ho
    cases ho
    exact hne rfl
  have hcells : ∀ c, d.ptr_ ≠ some c →
      (match d.ptr_ with
        | some a => s.heap.delete a
        | none => s.heap).cells[c]? = s.heap.cells[c]? := by
    intro c hc
    cases hp : d.ptr_ with
    | none => rfl
    | some a =>
      rw [hp] at hc
      exact Heap.cells_delete_other _ (fun e => hc (by rw [e]))
  refine ⟨(Machine.setObj { s with heap := match d.ptr_ with
      | some a => s.heap.delete a
      | none => s.heap } dst { ptr_ := o.ptr_ }).setObj src { ptr_ := none },
    by simp only [moveAssign, hd, ho, if_neg hne], ?_, ?_, ?_, ?_, hcells, ?_, ?_, ?_, rfl⟩
  · rw [Machine.obj_setObj _ _ _ _ (by simpa [Machine.setObj] using hol), if_neg hds,
      Machine.obj_setObj _ _ _ _ (by exact hdl), if_pos rfl]
  · rw [Machine.obj_setObj _ _ _ _ (by simpa [Machine.setObj] using hol), if_pos rfl]
  · intro a ha
    simp [Machine.setObj, ha, Heap.delete]
  · intro a ha hlt
    simp only [Machine.setObj, ha, Heap.delete]
    simp [List.getElem?_set_self, hlt]
  · intro c hc
    have hc2 : d.ptr_ ≠ some c := by rw [← hc]; exact hne
    have := hcells c hc2
    simp only [Heap.read, Machine.setObj]
    rw [this]
  · intro hp
    simp [Machine.setObj, hp]
  · intro k hk1 hk2
    rw [Machine.obj_setObj _ _ _ _ (by simpa [Machine.setObj] using hol), if_neg hk2,
      Machine.obj_setObj _ _ _ _ (by exact hdl), if_neg hk1]
    rfl

theorem get_val_of_obj {s : Machine T} {p : Nat} {o : Obj} (h : s.obj p = some o) :
    get_val s p = match o.ptr_ with
      | some c => s.heap.read c
      | none => none := by
  unfold get_val
  rw [h]
  rcases o with ⟨_ | c⟩ <;> rfl

theorem moveAssign_get_val (s : Machine T) (dst src : Nat) (d o : Obj)
    (hd : s.obj dst = some d) (ho : s.obj src = some o) (hne : d.ptr_ ≠ o.ptr_) :
    ∃ s1, moveAssign s dst src = some s1 ∧ get_val s1 dst = get_val s src := by
  obtain ⟨s1, h1, h2, -, -, -, -, h7, -⟩ := moveAssign_spec s dst src d o hd ho hne
  refine ⟨s1, h1, ?_⟩
  rw [get_val_of_obj h2, get_val_of_obj ho]
  cases hp : o.ptr_ with
  | none => rfl
  | some c => exact h7 c hp

end Pointer

/-- C2: for live objects `dst` and `src` whose `ptr_` fields differ (so they are
distinct objects), `dst = std::move(src)` succeeds and: `dst.ptr_` becomes the
former `src.ptr_`; `src.ptr_` becomes `nullptr`; exactly one `delete` is
executed, on `dst`'s former cell, when `dst` held one, and the heap is not
touched at all when `dst` held none (a moved-from `dst`); every cell other than
`dst`'s former one is unchanged, so the getter of `dst` now returns what the
getter of `src` returned.  Stated for `Pointer<T>` and for `IntPtrManager`. -/
theorem C2_move_assign {T : Type} (s : Machine T) (t : Machine Int) (dst src mdst msrc : Nat)
    (d o md mo : Obj)
    (hd : s.obj dst = some d) (ho : s.obj src = some o) (hne : d.ptr_ ≠ o.ptr_)
    (hmd : t.obj mdst = some md) (hmo : t.obj msrc = some mo) (hmne : md.ptr_ ≠ mo.ptr_) :
    (∃ s1, Pointer.moveAssign s dst src = some s1 ∧
      s1.obj dst = some { ptr_ := o.ptr_ } ∧ s1.obj src = some { ptr_ := none } ∧
      (∀ a, d.ptr_ = some a → s1.heap.freed = a :: s.heap.freed) ∧
      (d.ptr_ = none → s1.heap = s.heap) ∧
      (∀ c, d.ptr_ ≠ some c → s1.heap.cells[c]? = s.heap.cells[c]?) ∧
      Pointer.get_val s1 dst = Pointer.get_val s src) ∧
    (∃ t1, IntPtrManager.moveAssign t mdst msrc = some t1 ∧
      t1.obj mdst = some { ptr_ := mo.ptr_ } ∧ t1.obj msrc = some { ptr_ := none } ∧
      (∀ a, md.ptr_ = some a → t1.heap.freed = a :: t.heap.freed) ∧
      (md.ptr_ = none → t1.heap = t.heap) ∧
      (∀ c, md.ptr_ ≠ some c → t1.heap.cells[c]? = t.heap.cells[c]?) ∧
      IntPtrManager.GetVal t1 mdst = IntPtrManager.GetVal t msrc) := by
  constructor
  · obtain ⟨s1, h1, h2, h3, h4, -, h6, -, h8, -⟩ :=
      Pointer.moveAssign_spec s dst src d o hd ho hne
    obtain ⟨s2, g1, g2⟩ := Pointer.moveAssign_get_val s dst src d o hd ho hne
    have e : s2 = s1 := by rw [h1] at g1; exact (Option.some.inj g1).symm
    subst e
    exact ⟨s2, h1, h2, h3, h4, h8, h6, g2⟩
  · obtain ⟨t1, h1, h2, h3, h4, -, h6, -, h8, -⟩ :=
      Pointer.moveAssign_spec t mdst msrc md mo hmd hmo hmne
    obtain ⟨t2, g1, g2⟩ := Pointer.moveAssign_get_val t mdst msrc md mo hmd hmo hmne
    have e : t2 = t1 := by rw [h1] at g1; exact (Option.some.inj g1).symm
    subst e
    exact ⟨t2, h1, h2, h3, h4, h8, h6, g2⟩

/-- C2 at a state with two owners: object 0 (cell 0, value 7) is assigned from
object 1 (cell 1, value 9). -/
theorem C2_move_assign_witness :
    (demoTwo.obj 0 = some { ptr_ := some 0 } ∧ demoTwo.obj 1 = some { ptr_ := some 1 }) ∧
    ((∃ s1, Pointer.moveAssign demoTwo 0 1 = some s1 ∧
      s1.obj 0 = some { ptr_ := some 1 } ∧ s1.obj 1 = some { ptr_ := none } ∧
      (∀ a, some 0 = some a → s1.heap.freed = a :: demoTwo.heap.freed) ∧
      (some 0 = none → s1.heap = demoTwo.heap) ∧
      (∀ c, some 0 ≠ some c → s1.heap.cells[c]? = demoTwo.heap.cells[c]?) ∧
      Pointer.get_val s1 0 = Pointer.get_val demoTwo 1) ∧
    (∃ t1, IntPtrManager.moveAssign demoTwo 0 1 = some t1 ∧
      t1.obj 0 = some { ptr_ := some 1 } ∧ t1.obj 1 = some { ptr_ := none } ∧
      (∀ a, some 0 = some a → t1.heap.freed = a :: demoTwo.heap.freed) ∧
      (some 0 = none → t1.heap = demoTwo.heap) ∧
      (∀ c, some 0 ≠ some c → t1.heap.cells[c]? = demoTwo.heap.cells[c]?) ∧
      IntPtrManager.GetVal t1 0 = IntPtrManager.GetVal demoTwo 1)) :=
  ⟨by decide, C2_move_assign demoTwo demoTwo 0 1 0 1 { ptr_ := some 0 } { ptr_ := some 1 }
    { ptr_ := some 0 } { ptr_ := some 1 } (by decide) (by decide) (by decide)
    (by decide) (by decide) (by decide)⟩

/-! ## The ownership invariant is preserved by every operation -/

namespace Inv

variable {T : Type}

theorem init_inv : Inv (Machine.init : Machine T) := by
  refine ⟨?_, ?_, ?_, ?_, ?_⟩ <;> simp [Machine.init, Machine.holds, Machine.obj]

/-- A constructor: one new cell holding `v`, one new object holding it. -/
theorem alloc_inv {s s1 : Machine T} (hI : Inv s) (v : T)
    (hc : s1.heap.cells = s.heap.cells ++ [Cell.value v])
    (hf : s1.heap.freed = s.heap.freed)
    (ho : s1.objs = s.objs ++ [some { ptr_ := some s.heap.cells.length }]) : Inv s1 := by
  have hobj : ∀ i, s1.obj i =
      if i = s.objs.length then some { ptr_ := some s.heap.cells.length } else s.obj i := by
    intro i
    rw [← Machine.obj_newObj]
    simp [Machine.obj, Machine.newObj, ho]
  have hold : ∀ i a, s1.holds i a →
      (i = s.objs.length ∧ a = s.heap.cells.length) ∨ (i ≠ s.objs.length ∧ s.holds i a) := by
    intro i a h
    unfold Machine.holds at h
    rw [hobj] at h
    by_cases hi : i = s.objs.length
    · rw [if_pos hi] at h
      left
      refine ⟨hi, ?_⟩
      simp only [Option.some.injEq, Obj.mk.injEq] at h
      exact h.symm
    · rw [if_neg hi] at h
      exact Or.inr ⟨hi, h⟩
  have hlt : ∀ i a, s.holds i a → a < s.heap.cells.length := by
    intro i a h
    obtain ⟨w, hw⟩ := hI.valued i a h
    exact Heap.read_lt hw
  refine ⟨?_, ?_, ?_, ?_, ?_⟩
  · intro i a h
    rcases hold i a h with ⟨-, ha⟩ | ⟨-, h0⟩
    · subst ha
      exact ⟨v, by simp [Heap.read, hc]⟩
    · obtain ⟨w, hw⟩ := hI.valued i a h0
      refine ⟨w, ?_⟩
      have := Heap.read_lt hw
      unfold Heap.read at hw ⊢
      rw [hc, List.getElem?_append_left this]
      exact hw
  · intro i j a h1 h2
    rcases hold i a h1 with ⟨hi, ha⟩ | ⟨hi, h1'⟩ <;>
      rcases hold j a h2 with ⟨hj, ha'⟩ | ⟨hj, h2'⟩
    · rw [hi, hj]
    · have := hlt j a h2'
      rw [ha] at this
      exact absurd this (Nat.lt_irrefl _)
    · have := hlt i a h1'
      rw [ha'] at this
      exact absurd this (Nat.lt_irrefl _)
    · exact hI.unique i j a h1' h2'
  · intro i a h
    rw [hf]
    rcases hold i a h with ⟨-, ha⟩ | ⟨-, h0⟩
    · intro hmem
      have := hI.freedLt a hmem
      rw [ha] at this
      exact absurd this (Nat.lt_irrefl _)
    · exact hI.notFreed i a h0
  · rw [hf]; exact hI.nodup
  · intro a ha
    rw [hf] at ha
    have := hI.freedLt a ha
    rw [hc, List.length_append]
    exact Nat.lt_of_lt_of_le this (Nat.le_add_right _ _)

/-- A move construction from the live object `src`. -/
theorem move {s : Machine T} (hI : Inv s) {src : Nat} {o : Obj} (hs : s.obj src = some o) :
    Inv ((s.newObj { ptr_ := o.ptr_ }).2.setObj src { ptr_ := none }) := by
  have hlt := Machine.obj_lt hs
  have hlt2 : src < (s.newObj { ptr_ := o.ptr_ }).2.objs.length := by
    simp [Machine.newObj]; omega
  have hold : ∀ i a, ((s.newObj { ptr_ := o.ptr_ }).2.setObj src { ptr_ := none }).holds i a →
      (i = s.objs.length ∧ s.holds src a) ∨ (i ≠ s.objs.length ∧ i ≠ src ∧ s.holds i a) := by
    intro i a h
    unfold Machine.holds at h
    rw [Machine.obj_setObj _ _ _ _ hlt2, Machine.obj_newObj] at h
    by_cases hi : i = src
    · rw [if_pos hi] at h
      simp at h
    · rw [if_neg hi] at h
      by_cases hn : i = s.objs.length
      · rw [if_pos hn] at h
        left
        refine ⟨hn, ?_⟩
        unfold Machine.holds
        rw [hs]
        simp only [Option.some.injEq, Obj.mk.injEq] at h
        rcases o with ⟨p⟩
        simp only at h
        rw [h]
      · rw [if_neg hn] at h
        exact Or.inr ⟨hn, hi, h⟩
  refine ⟨?_, ?_, ?_, hI.nodup, hI.freedLt⟩
  · intro i a h
    rcases hold i a h with ⟨-, h0⟩ | ⟨-, -, h0⟩
    · exact hI.valued src a h0
    · exact hI.valued i a h0
  · intro i j a h1 h2
    rcases hold i a h1 with ⟨hi, h1'⟩ | ⟨hi, hi2, h1'⟩ <;>
      rcases hold j a h2 with ⟨hj, h2'⟩ | ⟨hj, hj2, h2'⟩
    · rw [hi, hj]
    · exact absurd (hI.unique src j a h1' h2') (fun e => hj2 e.symm)
    · exact absurd (hI.unique i src a h1' h2') hi2
    · exact hI.unique i j a h1' h2'
  · intro i a h
    rcases hold i a h with ⟨-, h0⟩ | ⟨-, -, h0⟩
    · exact hI.notFreed src a h0
    · exact hI.notFreed i a h0

/-- Owners are renamed injectively and the heap is untouched. -/
theorem transfer {s s1 : Machine T} (hI : Inv s) (f : Nat → Nat)
    (hold : ∀ i b, s1.holds i b → s.holds (f i) b)
    (inj : ∀ i j b, s1.holds i b → s1.holds j b → f i = f j → i = j)
    (hh : s1.heap = s.heap) : Inv s1 := by
  refine ⟨?_, ?_, ?_, ?_, ?_⟩
  · intro i a h
    rw [hh]
    exact hI.valued _ a (hold i a h)
  · intro i j a h1 h2
    exact inj i j a h1 h2 (hI.unique _ _ a (hold i a h1) (hold j a h2))
  · intro i a h
    rw [hh]
    exact hI.notFreed _ a (hold i a h)
  · rw [hh]; exact hI.nodup
  · rw [hh]; exact hI.freedLt

/-- The cell `a` of owner `p` is deleted and `p` stops holding it. -/
theorem release {s s1 : Machine T} (hI : Inv s) {p : Nat} {a : Addr} (hp : s.holds p a)
    (hold : ∀ i b, s1.holds i b → s.holds i b ∧ i ≠ p)
    (hh : s1.heap = s.heap.delete a) : Inv s1 := by
  have hne : ∀ i b, s1.holds i b → b ≠ a := by
    intro i b h e
    subst e
    exact (hold i b h).2 (hI.unique i p b (hold i b h).1 hp)
  refine ⟨?_, ?_, ?_, ?_, ?_⟩
  · intro i b h
    obtain ⟨w, hw⟩ := hI.valued i b (hold i b h).1
    refine ⟨w, ?_⟩
    unfold Heap.read at hw ⊢
    rw [hh, Heap.cells_delete_other _ (hne i b h)]
    exact hw
  · intro i j b h1 h2
    exact hI.unique i j b (hold i b h1).1 (hold j b h2).1
  · intro i b h
    rw [hh]
    simp only [Heap.delete, List.mem_cons, not_or]
    exact ⟨hne i b h, hI.notFreed i b (hold i b h).1⟩
  · rw [hh]
    simp only [Heap.delete, List.nodup_cons]
    exact ⟨hI.notFreed p a hp, hI.nodup⟩
  · intro b hb
    rw [hh] at hb ⊢
    simp only [Heap.delete, List.mem_cons, List.length_set] at hb ⊢
    rcases hb with e | hb
    · obtain ⟨w, hw⟩ := hI.valued p a hp
      rw [e]
      exact Heap.read_lt hw
    · exact hI.freedLt b hb

/-- A write through a pointer. -/
theorem store {s s1 : Machine T} (hI : Inv s) {a : Addr} {v : T} {h : Heap T}
    (hw : s.heap.write a v = some h) (hh : s1.heap = h) (ho : s1.objs = s.objs) : Inv s1 := by
  have hobj : ∀ i, s1.obj i = s.obj i := fun i => by simp [Machine.obj, ho]
  have hold : ∀ i b, s1.holds i b → s.holds i b := by
    intro i b hb
    simpa [Machine.holds, hobj] using hb
  obtain ⟨hc, hf, hlt, -⟩ := Heap.write_spec hw
  refine ⟨?_, ?_, ?_, ?_, ?_⟩
  · intro i b hb
    rw [hh]
    by_cases e : b = a
    · subst e
      exact ⟨v, Heap.read_write_same hw⟩
    · obtain ⟨w, hr⟩ := hI.valued i b (hold i b hb)
      refine ⟨w, ?_⟩
      unfold Heap.read at hr ⊢
      rw [Heap.read_write_other hw e]
      exact hr
  · intro i j b h1 h2
    exact hI.unique i j b (hold i b h1) (hold j b h2)
  · intro i b hb
    rw [hh, hf]
    exact hI.notFreed i b (hold i b hb)
  · rw [hh, hf]; exact hI.nodup
  · intro b hb
    rw [hh] at hb ⊢
    rw [hf] at hb
    rw [hc, List.length_set]
    exact hI.freedLt b hb

/-- The move assignment `dst = std::move(src)` with differing `ptr_` fields. -/
theorem assign {s : Machine T} (hI : Inv s) {dst src : Nat} {d o : Obj}
    (hd : s.obj dst = some d) (ho : s.obj src = some o) (hne : d.ptr_ ≠ o.ptr_) :
    Inv ((Machine.setObj { s with heap := match d.ptr_ with
      | some a => s.heap.delete a
      | none => s.heap } dst { ptr_ := o.ptr_ }).setObj src { ptr_ := none }) := by
  have hdl := Machine.obj_lt hd
  have hol := Machine.obj_lt ho
  have hds : dst ≠ src := by
    intro e
    subst e
    rw [hd] at ho
    cases ho
    exact hne rfl
  -- the state in which `dst` has released its cell
  have hmid : Inv (Machine.setObj { s with heap := match d.ptr_ with
      | some a => s.heap.delete a
      | none => s.heap } dst { ptr_ := none }) := by
    have hold : ∀ i b, (Machine.setObj { s with heap := match d.ptr_ with
          | some a => s.heap.delete a
          | none => s.heap } dst { ptr_ := none }).holds i b → s.holds i b ∧ i ≠ dst := by
      intro i b h
      unfold Machine.holds at h
      rw [Machine.obj_setObj _ _ _ _ (by exact hdl)] at h
      by_cases hi : i = dst
      · rw [if_pos hi] at h
        simp at h
      · rw [if_neg hi] at h
        exact ⟨h, hi⟩
    cases hp : d.ptr_ with
    | none =>
      refine transfer hI id (fun i b h => (hold i b h).1) (fun i j b _ _ e => e) ?_
      simp [Machine.setObj, hp]
    | some a =>
      have hda : s.holds dst a := by
        unfold Machine.holds
        rw [hd]
        rcases d with ⟨p⟩
        simp only at hp
        rw [hp]
      refine release hI hda hold ?_
      simp [Machine.setObj, hp]
  have hobj : ∀ i, ((Machine.setObj { s with heap := match d.ptr_ with
        | some a => s.heap.delete a
        | none => s.heap } dst { ptr_ := o.ptr_ }).setObj src { ptr_ := none }).obj i =
      if i = src then some { ptr_ := none } else if i = dst then some { ptr_ := o.ptr_ }
      else s.obj i := by
    intro i
    rw [Machine.obj_setObj _ _ _ _ (by simpa [Machine.setObj] using hol),
      Machine.obj_setObj _ _ _ _ (by exact hdl)]
    rfl
  have hobjm : ∀ i, (Machine.setObj { s with heap := match d.ptr_ with
        | some a => s.heap.delete a
        | none => s.heap } dst { ptr_ := none }).obj i =
      if i = dst then some { ptr_ := none } else s.obj i := by
    intro i
    rw [Machine.obj_setObj _ _ _ _ (by exact hdl)]
    rfl
  refine transfer hmid (fun i => if i = dst then src else i) ?_ ?_ rfl
  · intro i b h
    unfold Machine.holds at h ⊢
    rw [hobj] at h
    rw [hobjm]
    by_cases hi : i = src
    · rw [if_pos hi] at h
      simp at h
    · rw [if_neg hi] at h
      by_cases hi2 : i = dst
      · rw [if_pos hi2] at h
        have hsd : src ≠ dst := fun e => hds e.symm
        simp only [if_pos hi2, if_neg hsd]
        rw [ho]
        rcases o with ⟨p⟩
        simpa using h
      · rw [if_neg hi2] at h
        simp only [if_neg hi2]
        exact h
  · intro i j b h1 h2 e
    unfold Machine.holds at h1 h2
    rw [hobj] at h1 h2
    have hi : i ≠ src := by
      intro hi
      rw [if_pos hi] at h1
      simp at h1
    have hj : j ≠ src := by
      intro hj
      rw [if_pos hj] at h2
      simp at h2
    by_cases hi2 : i = dst <;> by_cases hj2 : j = dst
    · rw [hi2, hj2]
    · simp only [if_pos hi2, if_neg hj2] at e
      exact absurd e.symm hj
    · simp only [if_neg hi2, if_pos hj2] at e
      exact absurd e hi
    · simpa only [if_neg hi2, if_neg hj2] using e

/-- The end of the lifetime of a live object `p`, with the `delete` of its cell
when it holds one. -/
theorem destroy {s s1 : Machine T} (hI : Inv s) {p : Nat} {o : Obj} (hp : s.obj p = some o)
    (ho : s1.objs = s.objs.set p none)
    (hh : s1.heap = match o.ptr_ with
      | some a => s.heap.delete a
      | none => s.heap) : Inv s1 := by
  have hobj : ∀ i, s1.obj i = if i = p then none else s.obj i := by
    intro i
    rw [← Machine.obj_endObj]
    simp [Machine.obj, Machine.endObj, ho]
  have hold : ∀ i b, s1.holds i b → s.holds i b ∧ i ≠ p := by
    intro i b h
    unfold Machine.holds at h
    rw [hobj] at h
    by_cases hi : i = p
    · rw [if_pos hi] at h
      simp at h
    · rw [if_neg hi] at h
      exact ⟨h, hi⟩
  cases hq : o.ptr_ with
  | none =>
    rw [hq] at hh
    exact transfer hI id (fun i b h => (hold i b h).1) (fun i j b _ _ e => e) hh
  | some a =>
    rw [hq] at hh
    have hpa : s.holds p a := by
      unfold Machine.holds
      rw [hp]
      rcases o with ⟨q⟩
      simp only at hq
      rw [hq]
    exact release hI hpa hold hh

end Inv

/-! ## What the constructors compute -/

namespace Heap

variable {T : Type}

theorem alloc_write_eq (h : Heap T) (v : T) :
    h.alloc.2.write h.alloc.1 v =
      some { cells := h.cells ++ [Cell.value v], freed := h.freed } := by
  have e : (h.cells ++ [(Cell.uninit : Cell T)]).set h.cells.length (Cell.value v)
      = h.cells ++ [Cell.value v] := by
    rw [List.set_append_right _ _ (Nat.le_refl _)]
    simp
  simp [alloc, write, e]

end Heap

namespace Pointer

variable {T : Type}

theorem ctorVal_eq [ToString T] (s : Machine T) (val : T) :
    ctorVal s val = some (s.objs.length,
      { heap := { cells := s.heap.cells ++ [Cell.value val], freed := s.heap.freed },
        objs := s.objs ++ [some { ptr_ := some s.heap.cells.length }],
        out := s.out ++ ["New object on the heap: " ++ toString val] }) := by
  have h := Heap.alloc_write_eq s.heap val
  unfold ctorVal
  simp only [h]
  rfl

theorem ctor_eq [Zero T] [ToString T] (s : Machine T) :
    ctor s = some (s.objs.length,
      { heap := { cells := s.heap.cells ++ [Cell.value 0], freed := s.heap.freed },
        objs := s.objs ++ [some { ptr_ := some s.heap.cells.length }],
        out := s.out ++ ["New object on the heap: " ++ toString (0 : T)] }) := by
  have h := Heap.alloc_write_eq s.heap (0 : T)
  have r : ({ cells := s.heap.cells ++ [Cell.value (0 : T)], freed := s.heap.freed } :
      Heap T).read s.heap.alloc.1 = some 0 := by
    simp [Heap.read, Heap.alloc]
  unfold ctor
  simp only [h, r]
  rfl

end Pointer

namespace IntPtrManager

theorem mgr_ctorVal_eq (s : Machine Int) (val : Int) :
    ctorVal s val = some (s.objs.length,
      { heap := { cells := s.heap.cells ++ [Cell.value val], freed := s.heap.freed },
        objs := s.objs ++ [some { ptr_ := some s.heap.cells.length }],
        out := s.out }) := by
  have h := Heap.alloc_write_eq s.heap val
  unfold ctorVal
  simp only [h]
  rfl

theorem mgr_ctor_eq (s : Machine Int) :
    ctor s = some (s.objs.length,
      { heap := { cells := s.heap.cells ++ [Cell.value 0], freed := s.heap.freed },
        objs := s.objs ++ [some { ptr_ := some s.heap.cells.length }],
        out := s.out }) := by
  have h := Heap.alloc_write_eq s.heap (0 : Int)
  unfold ctor
  simp only [h]
  rfl

end IntPtrManager

/-! ## Reachable states satisfy the ownership invariant -/

namespace Pointer

variable {T : Type}

theorem derefWrite_eq_set_val (s : Machine T) (p : Nat) (val : T) :
    derefWrite s p val = set_val s p val := by
  unfold derefWrite set_val deref
  rcases s.obj p with _ | ⟨_ | a⟩ <;> rfl

theorem derefRead_eq_get_val (s : Machine T) (p : Nat) :
    derefRead s p = get_val s p := by
  unfold derefRead get_val deref
  rcases s.obj p with _ | ⟨_ | a⟩ <;> rfl

theorem set_val_inv {s s1 : Machine T} (hI : Inv s) {p : Nat} {val : T}
    (h : set_val s p val = some s1) : Inv s1 := by
  unfold set_val at h
  rcases hp : s.obj p with _ | ⟨_ | a⟩
  · simp [hp] at h
  · simp [hp] at h
  · simp only [hp] at h
    cases hw : s.heap.write a val with
    | none => simp [hw] at h
    | some h2 =>
      simp only [hw, Option.some.injEq] at h
      subst h
      exact Inv.store hI hw rfl rfl

theorem moveAssign_inv {s s1 : Machine T} (hI : Inv s) {this another : Nat}
    (h : moveAssign s this another = some s1) : Inv s1 := by
  unfold moveAssign at h
  cases hd : s.obj this with
  | none => simp [hd] at h
  | some d =>
    cases ho : s.obj another with
    | none => simp [hd, ho] at h
    | some o =>
      simp only [hd, ho] at h
      by_cases e : d.ptr_ = o.ptr_
      · rw [if_pos e] at h
        cases h
        exact hI
      · rw [if_neg e] at h
        cases h
        exact Inv.assign hI hd ho e

theorem moveCtor_inv {s s1 : Machine T} (hI : Inv s) {another d : Nat}
    (h : moveCtor s another = some (d, s1)) : Inv s1 := by
  cases ho : s.obj another with
  | none => simp [moveCtor, ho] at h
  | some o =>
    rw [moveCtor_eq ho] at h
    cases h
    exact Inv.move hI ho

theorem dtor_inv [ToString T] {s s1 : Machine T} (hI : Inv s) {p : Nat}
    (h : dtor s p = some s1) : Inv s1 := by
  unfold dtor at h
  cases hp : s.obj p with
  | none => simp [hp] at h
  | some o =>
    simp only [hp] at h
    cases hq : o.ptr_ with
    | none =>
      simp only [hq, Option.some.injEq] at h
      subst h
      exact Inv.destroy hI hp rfl (by rw [hq]; rfl)
    | some a =>
      simp only [hq] at h
      cases hr : s.heap.read a with
      | none => simp [hr] at h
      | some v =>
        simp only [hr, Option.some.injEq] at h
        subst h
        exact Inv.destroy hI hp rfl (by rw [hq]; rfl)

theorem step_inv [Zero T] [ToString T] {s s1 : Machine T} (hI : Inv s) (op : Op T)
    (h : step s op = some s1) : Inv s1 := by
  cases op with
  | ctor =>
    simp only [step, ctor_eq, Option.map_some', Option.some.injEq] at h
    subst h
    exact Inv.alloc_inv hI 0 rfl rfl rfl
  | ctorVal val =>
    simp only [step, ctorVal_eq, Option.map_some', Option.some.injEq] at h
    subst h
    exact Inv.alloc_inv hI val rfl rfl rfl
  | moveCtor another =>
    simp only [step] at h
    cases hm : moveCtor s another with
    | none => simp [hm] at h
    | some r =>
      obtain ⟨d, s2⟩ := r
      simp only [hm, Option.map_some', Option.some.injEq] at h
      subst h
      exact moveCtor_inv hI hm
  | moveAssign this another => exact moveAssign_inv hI h
  | set_val p val => exact set_val_inv hI h
  | get_val p =>
    simp only [step] at h
    cases hg : get_val s p with
    | none => simp [hg] at h
    | some v =>
      simp only [hg, Option.map_some', Option.some.injEq] at h
      subst h
      exact hI
  | derefWrite p val =>
    simp only [step, derefWrite_eq_set_val] at h
    exact set_val_inv hI h
  | derefRead p =>
    simp only [step] at h
    cases hg : derefRead s p with
    | none => simp [hg] at h
    | some v =>
      simp only [hg, Option.map_some', Option.some.injEq] at h
      subst h
      exact hI
  | dtor p => exact dtor_inv hI h

theorem run_inv [Zero T] [ToString T] (ops : List (Op T)) {s s1 : Machine T} (hI : Inv s)
    (h : run s ops = some s1) : Inv s1 := by
  induction ops generalizing s with
  | nil =>
    simp only [run, Option.some.injEq] at h
    subst h
    exact hI
  | cons op ops ih =>
    simp only [run] at h
    cases hs : step s op with
    | none => simp [hs] at h
    | some s2 =>
      simp only [hs] at h
      exact ih (step_inv hI op hs) h

end Pointer

namespace IntPtrManager

theorem mgr_dtor_inv {s s1 : Machine Int} (hI : Inv s) {p : Nat}
    (h : dtor s p = some s1) : Inv s1 := by
  unfold dtor at h
  cases hp : s.obj p with
  | none => simp [hp] at h
  | some o =>
    simp only [hp] at h
    cases hq : o.ptr_ with
    | none =>
      simp only [hq, Option.some.injEq] at h
      subst h
      exact Inv.destroy hI hp rfl (by rw [hq]; rfl)
    | some a =>
      simp only [hq, Option.some.injEq] at h
      subst h
      exact Inv.destroy hI hp rfl (by rw [hq]; rfl)

theorem mgr_step_inv {s s1 : Machine Int} (hI : Inv s) (op : Op)
    (h : step s op = some s1) : Inv s1 := by
  cases op with
  | ctor =>
    simp only [step, mgr_ctor_eq, Option.map_some', Option.some.injEq] at h
    subst h
    exact Inv.alloc_inv hI 0 rfl rfl rfl
  | ctorVal val =>
    simp only [step, mgr_ctorVal_eq, Option.map_some', Option.some.injEq] at h
    subst h
    exact Inv.alloc_inv hI val rfl rfl rfl
  | moveCtor other =>
    simp only [step, moveCtor_eq_pointer] at h
    cases hm : Pointer.moveCtor s other with
    | none => simp [hm] at h
    | some r =>
      obtain ⟨d, s2⟩ := r
      simp only [hm, Option.map_some', Option.some.injEq] at h
      subst h
      exact Pointer.moveCtor_inv hI hm
  | moveAssign this other =>
    simp only [step, moveAssign_eq_pointer] at h
    exact Pointer.moveAssign_inv hI h
  | SetVal p val =>
    simp only [step, SetVal_eq_pointer] at h
    exact Pointer.set_val_inv hI h
  | GetVal p =>
    simp only [step] at h
    cases hg : GetVal s p with
    | none => simp [hg] at h
    | some v =>
      simp only [hg, Option.map_some', Option.some.injEq] at h
      subst h
      exact hI
  | dtor p => exact mgr_dtor_inv hI h

theorem mgr_run_inv (ops : List Op) {s s1 : Machine Int} (hI : Inv s)
    (h : run s ops = some s1) : Inv s1 := by
  induction ops generalizing s with
  | nil =>
    simp only [run, Option.some.injEq] at h
    subst h
    exact hI
  | cons op ops ih =>
    simp only [run] at h
    cases hs : step s op with
    | none => simp [hs] at h
    | some s2 =>
      simp only [hs] at h
      exact ih (mgr_step_inv hI op hs) h

end IntPtrManager

/-- C3: in every state reachable from program start through the constructors,
the move constructor, the move assignment, `set_val`/`get_val`, `operator*` and
the destructor of `Pointer<T>`, no cell is held by two different live objects
and no cell has been deleted twice; the same for `IntPtrManager`. -/
theorem C3_single_owner_no_double_delete {T : Type} [Zero T] [ToString T]
    (ops : List (Pointer.Op T)) (s : Machine T) (mops : List IntPtrManager.Op)
    (t : Machine Int)
    (hs : Pointer.run Machine.init ops = some s)
    (ht : IntPtrManager.run Machine.init mops = some t) :
    ((∀ i j a, s.holds i a → s.holds j a → i = j) ∧ s.heap.freed.Nodup) ∧
    ((∀ i j a, t.holds i a → t.holds j a → i = j) ∧ t.heap.freed.Nodup) := by
  have h1 := Pointer.run_inv ops Inv.init_inv hs
  have h2 := IntPtrManager.mgr_run_inv mops Inv.init_inv ht
  exact ⟨⟨h1.unique, h1.nodup⟩, ⟨h2.unique, h2.nodup⟩⟩

/-- C3 at the states reached by the two `main` functions. -/
theorem C3_single_owner_no_double_delete_witness :
    (Pointer.run Machine.init mainOps = some mainState ∧
      IntPtrManager.run Machine.init mgrOps = some mgrState) ∧
    (((∀ i j a, mainState.holds i a → mainState.holds j a → i = j) ∧
        mainState.heap.freed.Nodup) ∧
      ((∀ i j a, mgrState.holds i a → mgrState.holds j a → i = j) ∧
        mgrState.heap.freed.Nodup)) :=
  ⟨by decide, C3_single_owner_no_double_delete mainOps mainState mgrOps mgrState
    (by decide) (by decide)⟩

/-! ## Destructors -/

namespace Pointer

variable {T : Type}

theorem dtor_holding [ToString T] {s : Machine T} {p : Nat} {a : Addr} {v : T}
    (hp : s.holds p a) (hv : s.heap.read a = some v) :
    dtor s p = some (Machine.endObj
      { s with heap := s.heap.delete a, out := s.out ++ ["Freed: " ++ toString v] } p) := by
  unfold Machine.holds at hp
  simp only [dtor, hp, hv]

theorem dtor_null [ToString T] {s : Machine T} {p : Nat}
    (hp : s.obj p = some { ptr_ := none }) : dtor s p = some (s.endObj p) := by
  simp only [dtor, hp]

end Pointer

namespace IntPtrManager

theorem mgr_dtor_holding {s : Machine Int} {p : Nat} {a : Addr} (hp : s.holds p a) :
    dtor s p = some (Machine.endObj { s with heap := s.heap.delete a } p) := by
  unfold Machine.holds at hp
  simp only [dtor, hp]

theorem mgr_dtor_null {s : Machine Int} {p : Nat}
    (hp : s.obj p = some { ptr_ := none }) : dtor s p = some (s.endObj p) := by
  simp only [dtor, hp]

end IntPtrManager

/-- C4: in any state `s`, the destructor of an object `p` that holds cell `a`
executes exactly one `delete`, on `a` (and `~Pointer` first prints `Freed: `
followed by the value in `a`); in any state `sq`, the destructor of an object
`q` whose `ptr_` is `nullptr` leaves heap and output as they were.  In either
case only the destroyed object leaves the object table.  The states of the two
parts are unrelated, and likewise `t` and `tq` for `IntPtrManager`.  Last part:
after `IntPtrManager b(std::move(a))` the destructor of `b` deletes the cell
once and the destructor of `a` deletes nothing. -/
theorem C4_destructor {T : Type} [ToString T] (s sq : Machine T) (t tq u : Machine Int)
    (p q mp mq ua : Nat) (a b c : Addr) (v : T)
    (hp : s.holds p a) (hv : s.heap.read a = some v) (hq : sq.obj q = some { ptr_ := none })
    (hmp : t.holds mp b) (hmq : tq.obj mq = some { ptr_ := none })
    (hu : u.holds ua c) :
    (∃ s1, Pointer.dtor s p = some s1 ∧
      s1.heap.freed = a :: s.heap.freed ∧ s1.heap.cells = s.heap.cells.set a Cell.deleted ∧
      s1.out = s.out ++ ["Freed: " ++ toString v] ∧
      ∀ k, s1.obj k = if k = p then none else s.obj k) ∧
    (∃ s2, Pointer.dtor sq q = some s2 ∧ s2.heap = sq.heap ∧ s2.out = sq.out ∧
      ∀ k, s2.obj k = if k = q then none else sq.obj k) ∧
    (∃ t1, IntPtrManager.dtor t mp = some t1 ∧
      t1.heap.freed = b :: t.heap.freed ∧ t1.heap.cells = t.heap.cells.set b Cell.deleted ∧
      t1.out = t.out ∧ ∀ k, t1.obj k = if k = mp then none else t.obj k) ∧
    (∃ t2, IntPtrManager.dtor tq mq = some t2 ∧ t2.heap = tq.heap ∧ t2.out = tq.out ∧
      ∀ k, t2.obj k = if k = mq then none else tq.obj k) ∧
    (∃ ub u1 u2 u3, IntPtrManager.moveCtor u ua = some (ub, u1) ∧
      IntPtrManager.dtor u1 ub = some u2 ∧ IntPtrManager.dtor u2 ua = some u3 ∧
      u1.heap = u.heap ∧ u2.heap.freed = c :: u.heap.freed ∧ u3.heap = u2.heap) := by
  refine ⟨⟨_, Pointer.dtor_holding hp hv, rfl, rfl, rfl, fun k => Machine.obj_endObj _ p k⟩,
    ⟨_, Pointer.dtor_null hq, rfl, rfl, fun k => Machine.obj_endObj _ q k⟩,
    ⟨_, IntPtrManager.mgr_dtor_holding hmp, rfl, rfl, rfl, fun k => Machine.obj_endObj _ mp k⟩,
    ⟨_, IntPtrManager.mgr_dtor_null hmq, rfl, rfl, fun k => Machine.obj_endObj _ mq k⟩, ?_⟩
  have hlt := Machine.obj_lt hu
  have hlt2 : ua < (u.newObj { ptr_ := some c }).2.objs.length := by
    simp [Machine.newObj]; omega
  have hne : u.objs.length ≠ ua := by omega
  have hb : ((u.newObj { ptr_ := some c }).2.setObj ua { ptr_ := none }).holds u.objs.length c := by
    simp [Machine.holds, Machine.obj_setObj _ _ _ _ hlt2, Machine.obj_newObj, hne]
  have ha : (Machine.endObj { (u.newObj { ptr_ := some c }).2.setObj ua { ptr_ := none } with
      heap := ((u.newObj { ptr_ := some c }).2.setObj ua { ptr_ := none }).heap.delete c }
      u.objs.length).obj ua = some { ptr_ := none } := by
    rw [Machine.obj_endObj, if_neg (fun e => hne e.symm)]
    exact (Machine.obj_setObj _ _ _ _ hlt2).trans (if_pos rfl)
  exact ⟨_, _, _, _, Pointer.moveCtor_eq hu, IntPtrManager.mgr_dtor_holding hb,
    IntPtrManager.mgr_dtor_null ha, rfl, rfl, rfl⟩

/-- C4 with the holders in states that have no moved-from object: `p1` alone
after `Pointer<int> p1(4);` (object 0, cell 0, value 4) and `a` alone after
`IntPtrManager a(445);`.  The moved-from objects are `p3` (object 2) at the end
of `main` of s24_my_ptr.cpp and `a` (object 0) at the end of `main` of
wrapper_class.cpp; `a(445)` alone for the last part. -/
theorem C4_destructor_witness :
    (demoOne.holds 0 0 ∧ demoOne.heap.read 0 = some 4 ∧
      mainState.obj 2 = some { ptr_ := none } ∧
      demoMgr.holds 0 0 ∧ mgrState.obj 0 = some { ptr_ := none } ∧ demoMgr.holds 0 0) ∧
    ((∃ s1, Pointer.dtor demoOne 0 = some s1 ∧
      s1.heap.freed = 0 :: demoOne.heap.freed ∧
      s1.heap.cells = demoOne.heap.cells.set 0 Cell.deleted ∧
      s1.out = demoOne.out ++ ["Freed: " ++ toString (4 : Int)] ∧
      ∀ k, s1.obj k = if k = 0 then none else demoOne.obj k) ∧
    (∃ s2, Pointer.dtor mainState 2 = some s2 ∧ s2.heap = mainState.heap ∧
      s2.out = mainState.out ∧ ∀ k, s2.obj k = if k = 2 then none else mainState.obj k) ∧
    (∃ t1, IntPtrManager.dtor demoMgr 0 = some t1 ∧
      t1.heap.freed = 0 :: demoMgr.heap.freed ∧
      t1.heap.cells = demoMgr.heap.cells.set 0 Cell.deleted ∧
      t1.out = demoMgr.out ∧ ∀ k, t1.obj k = if k = 0 then none else demoMgr.obj k) ∧
    (∃ t2, IntPtrManager.dtor mgrState 0 = some t2 ∧ t2.heap = mgrState.heap ∧
      t2.out = mgrState.out ∧ ∀ k, t2.obj k = if k = 0 then none else mgrState.obj k) ∧
    (∃ ub u1 u2 u3, IntPtrManager.moveCtor demoMgr 0 = some (ub, u1) ∧
      IntPtrManager.dtor u1 ub = some u2 ∧ IntPtrManager.dtor u2 0 = some u3 ∧
      u1.heap = demoMgr.heap ∧ u2.heap.freed = 0 :: demoMgr.heap.freed ∧ u3.heap = u2.heap)) :=
  ⟨by decide, C4_destructor demoOne mainState demoMgr mgrState demoMgr 0 2 0 0 0 0 0 0 4
    (by decide) (by decide) (by decide) (by decide) (by decide) (by decide)⟩

/-! ## Unique ownership, not reference counting -/

/-- C5, refuted as stated: starting from program start, no sequence of
`Pointer<int>` operations reaches a state in which two different live objects
hold the same cell, so a cell never has several owners at once. -/
theorem C5_no_shared_cell :
    ¬ ∃ (ops : List (Pointer.Op Int)) (s : Machine Int) (i j : Nat) (a : Addr),
      Pointer.run Machine.init ops = some s ∧ i ≠ j ∧ s.holds i a ∧ s.holds j a := by
  rintro ⟨ops, s, i, j, a, hs, hij, hi, hj⟩
  exact hij ((Pointer.run_inv ops Inv.init_inv hs).unique i j a hi hj)

/-- C5 as amended: `Pointer<T>` is a unique owner.  In every reachable state a
cell held by a live object `p` is held by no other object, and destroying `p`
deletes that cell at once, whatever else the program holds. -/
theorem C5_unique_owner {T : Type} [Zero T] [ToString T] (ops : List (Pointer.Op T))
    (s : Machine T) (p : Nat) (a : Addr)
    (hs : Pointer.run Machine.init ops = some s) (hp : s.holds p a) :
    (∀ q, s.holds q a → q = p) ∧
    ∃ s1, Pointer.dtor s p = some s1 ∧ s1.heap.freed = a :: s.heap.freed ∧
      s1.heap.cells[a]? = some Cell.deleted ∧ s1.obj p = none := by
  have hI := Pointer.run_inv ops Inv.init_inv hs
  obtain ⟨v, hv⟩ := hI.valued p a hp
  refine ⟨fun q hq => hI.unique q p a hq hp, _, Pointer.dtor_holding hp hv, rfl, ?_, ?_⟩
  · have hlt := Heap.read_lt hv
    simp [Machine.endObj, Heap.delete, List.getElem?_set_self, hlt]
  · rw [Machine.obj_endObj, if_pos rfl]

/-- C5 as amended, at the state reached by `main`: `p4` (object 3) is the only
holder of cell 1 and its destructor deletes it. -/
theorem C5_unique_owner_witness :
    (Pointer.run Machine.init mainOps = some mainState ∧ mainState.holds 3 1) ∧
    ((∀ q, mainState.holds q 1 → q = 3) ∧
    ∃ s1, Pointer.dtor mainState 3 = some s1 ∧ s1.heap.freed = 1 :: mainState.heap.freed ∧
      s1.heap.cells[1]? = some Cell.deleted ∧ s1.obj 3 = none) :=
  ⟨by decide, C5_unique_owner mainOps mainState 3 1 (by decide) (by decide)⟩

/-! ## Constructors -/

namespace Inv

variable {T : Type}

theorem alloc_spec {s s1 : Machine T} (hI : Inv s) (v : T)
    (hc : s1.heap.cells = s.heap.cells ++ [Cell.value v])
    (ho : s1.objs = s.objs ++ [some { ptr_ := some s.heap.cells.length }]) :
    s.obj s.objs.length = none ∧ s1.holds s.objs.length s.heap.cells.length ∧
      s.heap.cells[s.heap.cells.length]? = none ∧
      (∀ q b, s.holds q b → b ≠ s.heap.cells.length) ∧
      Pointer.get_val s1 s.objs.length = some v := by
  have hobj : s1.obj s.objs.length = some { ptr_ := some s.heap.cells.length } := by
    simp [Machine.obj, ho]
  refine ⟨Machine.obj_length s, hobj, by simp, ?_, ?_⟩
  · intro q b hq e
    obtain ⟨w, hw⟩ := hI.valued q b hq
    have := Heap.read_lt hw
    rw [e] at this
    exact absurd this (Nat.lt_irrefl _)
  · rw [Pointer.get_val_of_obj hobj]
    simp [Heap.read, hc]

end Inv

/-- C6: in every reachable state, `Pointer(val)` and `IntPtrManager(val)`
succeed and give a new object holding a cell that did not exist before, hence
differs from every cell held by any object, and the getter of the new object
returns `val`; the default constructors do the same with value 0.  Instances:
`IntPtrManager a(445)` reads 445 and `Pointer<int> p1(4)` reads 4. -/
theorem C6_constructors {T : Type} [Zero T] [ToString T] (ops : List (Pointer.Op T))
    (s : Machine T) (mops : List IntPtrManager.Op) (t : Machine Int) (val : T) (mval : Int)
    (hs : Pointer.run Machine.init ops = some s)
    (ht : IntPtrManager.run Machine.init mops = some t) :
    (∃ p s1 a, Pointer.ctorVal s val = some (p, s1) ∧ s.obj p = none ∧ s1.holds p a ∧
      s.heap.cells[a]? = none ∧ (∀ q b, s.holds q b → b ≠ a) ∧
      Pointer.get_val s1 p = some val) ∧
    (∃ p s1 a, Pointer.ctor s = some (p, s1) ∧ s.obj p = none ∧ s1.holds p a ∧
      s.heap.cells[a]? = none ∧ (∀ q b, s.holds q b → b ≠ a) ∧
      Pointer.get_val s1 p = some 0) ∧
    (∃ p t1 a, IntPtrManager.ctorVal t mval = some (p, t1) ∧ t.obj p = none ∧ t1.holds p a ∧
      t.heap.cells[a]? = none ∧ (∀ q b, t.holds q b → b ≠ a) ∧
      IntPtrManager.GetVal t1 p = some mval) ∧
    (∃ p t1 a, IntPtrManager.ctor t = some (p, t1) ∧ t.obj p = none ∧ t1.holds p a ∧
      t.heap.cells[a]? = none ∧ (∀ q b, t.holds q b → b ≠ a) ∧
      IntPtrManager.GetVal t1 p = some 0) ∧
    (∃ p t1, IntPtrManager.ctorVal Machine.init 445 = some (p, t1) ∧
      IntPtrManager.GetVal t1 p = some 445) ∧
    (∃ p s1, Pointer.ctorVal (Machine.init : Machine Int) 4 = some (p, s1) ∧
      Pointer.get_val s1 p = some 4) := by
  have hI := Pointer.run_inv ops Inv.init_inv hs
  have hJ := IntPtrManager.mgr_run_inv mops Inv.init_inv ht
  refine ⟨⟨_, _, s.heap.cells.length, Pointer.ctorVal_eq s val, ?_⟩,
    ⟨_, _, s.heap.cells.length, Pointer.ctor_eq s, ?_⟩,
    ⟨_, _, t.heap.cells.length, IntPtrManager.mgr_ctorVal_eq t mval, ?_⟩,
    ⟨_, _, t.heap.cells.length, IntPtrManager.mgr_ctor_eq t, ?_⟩,
    ⟨_, _, IntPtrManager.mgr_ctorVal_eq Machine.init 445, ?_⟩,
    ⟨_, _, Pointer.ctorVal_eq Machine.init 4, ?_⟩⟩
  · exact Inv.alloc_spec hI val rfl rfl
  · exact Inv.alloc_spec hI 0 rfl rfl
  · exact Inv.alloc_spec hJ mval rfl rfl
  · exact Inv.alloc_spec hJ 0 rfl rfl
  · decide
  · decide

/-- C6 at the states reached by the two `main` functions. -/
theorem C6_constructors_witness :
    (Pointer.run Machine.init mainOps = some mainState ∧
      IntPtrManager.run Machine.init mgrOps = some mgrState) ∧
    ((∃ p s1 a, Pointer.ctorVal mainState 5 = some (p, s1) ∧ mainState.obj p = none ∧
      s1.holds p a ∧ mainState.heap.cells[a]? = none ∧ (∀ q b, mainState.holds q b → b ≠ a) ∧
      Pointer.get_val s1 p = some 5) ∧
    (∃ p s1 a, Pointer.ctor mainState = some (p, s1) ∧ mainState.obj p = none ∧
      s1.holds p a ∧ mainState.heap.cells[a]? = none ∧ (∀ q b, mainState.holds q b → b ≠ a) ∧
      Pointer.get_val s1 p = some 0) ∧
    (∃ p t1 a, IntPtrManager.ctorVal mgrState 7 = some (p, t1) ∧ mgrState.obj p = none ∧
      t1.holds p a ∧ mgrState.heap.cells[a]? = none ∧ (∀ q b, mgrState.holds q b → b ≠ a) ∧
      IntPtrManager.GetVal t1 p = some 7) ∧
    (∃ p t1 a, IntPtrManager.ctor mgrState = some (p, t1) ∧ mgrState.obj p = none ∧
      t1.holds p a ∧ mgrState.heap.cells[a]? = none ∧ (∀ q b, mgrState.holds q b → b ≠ a) ∧
      IntPtrManager.GetVal t1 p = some 0) ∧
    (∃ p t1, IntPtrManager.ctorVal Machine.init 445 = some (p, t1) ∧
      IntPtrManager.GetVal t1 p = some 445) ∧
    (∃ p s1, Pointer.ctorVal (Machine.init : Machine Int) 4 = some (p, s1) ∧
      Pointer.get_val s1 p = some 4)) :=
  ⟨by decide, C6_constructors mainOps mainState mgrOps mgrState 5 7 (by decide) (by decide)⟩

/-! ## Accessors -/

namespace Pointer

variable {T : Type}

theorem set_val_spec {s : Machine T} (hI : Inv s) {p : Nat} {a : Addr} (hp : s.holds p a)
    (v : T) :
    ∃ s1, set_val s p v = some s1 ∧ get_val s1 p = some v ∧ s1.objs = s.objs ∧
      s1.heap.freed = s.heap.freed ∧ s1.out = s.out ∧
      (∀ c, c ≠ a → s1.heap.cells[c]? = s.heap.cells[c]?) ∧
      (∀ q, q ≠ p → get_val s1 q = get_val s q) := by
  obtain ⟨w, hw⟩ := hI.valued p a hp
  obtain ⟨h2, hh⟩ := Heap.write_of_read hw v
  have hp' : s.obj p = some { ptr_ := some a } := hp
  have hobj : ∀ q, Machine.obj { s with heap := h2 } q = s.obj q := fun _ => rfl
  refine ⟨{ s with heap := h2 }, by simp only [set_val, hp', hh], ?_, rfl,
    (Heap.write_spec hh).2.1, rfl, fun c hc => Heap.read_write_other hh hc, ?_⟩
  · rw [get_val_of_obj ((hobj p).trans hp')]
    exact Heap.read_write_same hh
  · intro q hq
    cases ho : s.obj q with
    | none => simp [get_val, hobj, ho]
    | some o =>
      rw [get_val_of_obj ((hobj q).trans ho), get_val_of_obj ho]
      cases hc : o.ptr_ with
      | none => rfl
      | some c =>
        have hqc : s.holds q c := by
          unfold Machine.holds
          rw [ho]
          rcases o with ⟨r⟩
          simp only at hc
          rw [hc]
        have hca : c ≠ a := by
          intro e
          rw [e] at hqc
          exact hq (hI.unique q p a hqc hp)
        simp only [Heap.read]
        rw [Heap.read_write_other hh hca]

end Pointer

/-- C7: for an object `p` of a reachable state that holds a cell (it was not
moved from) and every value `v`, `p.set_val(v)` and `*p = v` succeed with the
same resulting state, in which `p.get_val()` and `*p` both return `v`; the
object table, the deletion log and the output are unchanged, every cell but
the one `p` holds is unchanged, and the getter of every other object returns
what it returned before.  In every state `*p = v` is `set_val(v)` and reading
`*p` is `get_val()`.  `IntPtrManager::SetVal`/`GetVal` behave the same way. -/
theorem C7_set_then_get {T : Type} [Zero T] [ToString T] (ops : List (Pointer.Op T))
    (s : Machine T) (mops : List IntPtrManager.Op) (t : Machine Int)
    (p mp : Nat) (a b : Addr) (v : T) (mv : Int)
    (hs : Pointer.run Machine.init ops = some s) (hp : s.holds p a)
    (ht : IntPtrManager.run Machine.init mops = some t) (hmp : t.holds mp b) :
    (∃ s1, Pointer.set_val s p v = some s1 ∧ Pointer.derefWrite s p v = some s1 ∧
      Pointer.get_val s1 p = some v ∧ Pointer.derefRead s1 p = some v ∧
      s1.objs = s.objs ∧ s1.heap.freed = s.heap.freed ∧ s1.out = s.out ∧
      (∀ c, c ≠ a → s1.heap.cells[c]? = s.heap.cells[c]?) ∧
      (∀ q, q ≠ p → Pointer.get_val s1 q = Pointer.get_val s q)) ∧
    (∀ (x : Machine T) (q : Nat) (w : T),
      Pointer.derefWrite x q w = Pointer.set_val x q w ∧
      Pointer.derefRead x q = Pointer.get_val x q) ∧
    (∃ t1, IntPtrManager.SetVal t mp mv = some t1 ∧ IntPtrManager.GetVal t1 mp = some mv ∧
      t1.objs = t.objs ∧ t1.heap.freed = t.heap.freed ∧ t1.out = t.out ∧
      (∀ c, c ≠ b → t1.heap.cells[c]? = t.heap.cells[c]?) ∧
      (∀ q, q ≠ mp → IntPtrManager.GetVal t1 q = IntPtrManager.GetVal t q)) := by
  have hI := Pointer.run_inv ops Inv.init_inv hs
  have hJ := IntPtrManager.mgr_run_inv mops Inv.init_inv ht
  refine ⟨?_, fun x q w => ⟨Pointer.derefWrite_eq_set_val x q w,
    Pointer.derefRead_eq_get_val x q⟩, ?_⟩
  · obtain ⟨s1, h1, h2, h3, h4, h5, h6, h7⟩ := Pointer.set_val_spec hI hp v
    exact ⟨s1, h1, (Pointer.derefWrite_eq_set_val s p v).trans h1, h2,
      (Pointer.derefRead_eq_get_val s1 p).trans h2, h3, h4, h5, h6, h7⟩
  · obtain ⟨t1, h1, h2, h3, h4, h5, h6, h7⟩ := Pointer.set_val_spec hJ hmp mv
    exact ⟨t1, (IntPtrManager.SetVal_eq_pointer t mp mv).trans h1, h2, h3, h4, h5, h6, h7⟩

/-- C7 at the states reached by the two `main` functions: `p1.set_val(7)`
(object 0, cell 0) and `b.SetVal(8)` (object 1, cell 0). -/
theorem C7_set_then_get_witness :
    (Pointer.run Machine.init mainOps = some mainState ∧ mainState.holds 0 0 ∧
      IntPtrManager.run Machine.init mgrOps = some mgrState ∧ mgrState.holds 1 0) ∧
    ((∃ s1, Pointer.set_val mainState 0 7 = some s1 ∧
      Pointer.derefWrite mainState 0 7 = some s1 ∧
      Pointer.get_val s1 0 = some 7 ∧ Pointer.derefRead s1 0 = some 7 ∧
      s1.objs = mainState.objs ∧ s1.heap.freed = mainState.heap.freed ∧
      s1.out = mainState.out ∧
      (∀ c, c ≠ 0 → s1.heap.cells[c]? = mainState.heap.cells[c]?) ∧
      (∀ q, q ≠ 0 → Pointer.get_val s1 q = Pointer.get_val mainState q)) ∧
    (∀ (x : Machine Int) (q : Nat) (w : Int),
      Pointer.derefWrite x q w = Pointer.set_val x q w ∧
      Pointer.derefRead x q = Pointer.get_val x q) ∧
    (∃ t1, IntPtrManager.SetVal mgrState 1 8 = some t1 ∧
      IntPtrManager.GetVal t1 1 = some 8 ∧
      t1.objs = mgrState.objs ∧ t1.heap.freed = mgrState.heap.freed ∧ t1.out = mgrState.out ∧
      (∀ c, c ≠ 0 → t1.heap.cells[c]? = mgrState.heap.cells[c]?) ∧
      (∀ q, q ≠ 1 → IntPtrManager.GetVal t1 q = IntPtrManager.GetVal mgrState q))) :=
  ⟨by decide, C7_set_then_get mainOps mainState mgrOps mgrState 0 1 0 0 7 8
    (by decide) (by decide) (by decide) (by decide)⟩

/-! ## `smart_generator` -/

namespace Pointer

variable {T : Type}

theorem move_then_destroy [ToString T] (m : Machine T) (p : Nat) (a : Addr)
    (hp : m.holds p a) :
    ∃ r m2 m3, moveCtor m p = some (r, m2) ∧ dtor m2 p = some m3 ∧ m3.holds r a ∧
      m3.heap = m.heap ∧ m3.out = m.out ∧ m3.obj p = none ∧ r = m.objs.length := by
  have hlt := Machine.obj_lt hp
  have hlt2 : p < (m.newObj { ptr_ := some a }).2.objs.length := by
    simp [Machine.newObj]; omega
  have hne : m.objs.length ≠ p := by omega
  have hnull : ((m.newObj { ptr_ := some a }).2.setObj p { ptr_ := none }).obj p
      = some { ptr_ := none } := (Machine.obj_setObj _ _ _ _ hlt2).trans (if_pos rfl)
  refine ⟨_, _, _, moveCtor_eq hp, dtor_null hnull, ?_, rfl, rfl, ?_, rfl⟩
  · unfold Machine.holds
    rw [Machine.obj_endObj, if_neg hne, Machine.obj_setObj _ _ _ _ hlt2, if_neg hne,
      Machine.obj_newObj, if_pos rfl]
  · rw [Machine.obj_endObj, if_pos rfl]

theorem smart_generator_spec [ToString T] (s : Machine T) (init : T) :
    ∃ r s3, smart_generator s init = some (r, s3) ∧
      s3.holds r s.heap.cells.length ∧ s3.heap.read s.heap.cells.length = some init ∧
      s3.heap.freed = s.heap.freed ∧ s3.obj s.objs.length = none ∧
      s3.heap.cells = s.heap.cells ++ [Cell.value init] := by
  have h1 := ctorVal_eq s init
  have hp : Machine.holds
      { heap := { cells := s.heap.cells ++ [Cell.value init], freed := s.heap.freed },
        objs := s.objs ++ [some { ptr_ := some s.heap.cells.length }],
        out := s.out ++ ["New object on the heap: " ++ toString init] }
      s.objs.length s.heap.cells.length := by
    simp [Machine.holds, Machine.obj]
  obtain ⟨r, m2, m3, e1, e2, e3, e4, -, e6, -⟩ := move_then_destroy _ _ _ hp
  refine ⟨r, m3, by simp only [smart_generator, h1, e1, e2], e3, ?_, ?_, e6, ?_⟩
  · rw [e4]
    simp [Heap.read]
  · rw [e4]
  · rw [e4]

end Pointer

/-- C8: from every state and for every `init`, `smart_generator(init)` returns
an object that holds a cell whose content is the value `init` (so the cell is
not deleted) and whose getter returns `init`; the local object (it gets the
next object identity, `s.objs.length`) has been destroyed and no `delete` has
been executed.  Second part: after `p3 = smart_generator<int>(2);
p3.set_val(10); Pointer<int> p4 = std::move(p3);` the object `p4` holds a cell
with value 10 and `p3.ptr_` is `nullptr`. -/
theorem C8_smart_generator {T : Type} [ToString T] (s : Machine T) (init : T)
    (u : Machine Int) :
    (∃ r s3 a, Pointer.smart_generator s init = some (r, s3) ∧ s3.holds r a ∧
      s3.heap.read a = some init ∧ Pointer.get_val s3 r = some init ∧
      s3.heap.freed = s.heap.freed ∧ s3.obj s.objs.length = none) ∧
    (∃ p3 u1 u2 p4 u3 a, Pointer.smart_generator u 2 = some (p3, u1) ∧
      Pointer.set_val u1 p3 10 = some u2 ∧ Pointer.moveCtor u2 p3 = some (p4, u3) ∧
      u3.holds p4 a ∧ u3.heap.read a = some 10 ∧ Pointer.get_val u3 p4 = some 10 ∧
      u3.obj p3 = some { ptr_ := none }) := by
  constructor
  · obtain ⟨r, s3, h1, h2, h3, h4, h5, -⟩ := Pointer.smart_generator_spec s init
    refine ⟨r, s3, _, h1, h2, h3, ?_, h4, h5⟩
    rw [Pointer.get_val_of_obj h2]
    exact h3
  · obtain ⟨p3, u1, h1, h2, h3, -, -, -⟩ := Pointer.smart_generator_spec u 2
    obtain ⟨h, hw⟩ := Heap.write_of_read h3 10
    have h2' : u1.obj p3 = some { ptr_ := some u.heap.cells.length } := h2
    have hset : Pointer.set_val u1 p3 10 = some { u1 with heap := h } := by
      simp only [Pointer.set_val, h2', hw]
    have hold : Machine.holds { u1 with heap := h } p3 u.heap.cells.length := h2
    obtain ⟨p4, u3, g1, -, g3, g4, g5, g6⟩ :=
      Pointer.moveCtor_spec { u1 with heap := h } p3 u.heap.cells.length 10 hold
        (Heap.read_write_same hw)
    refine ⟨p3, u1, _, p4, u3, _, h1, hset, g1, g3, ?_, g4, g5⟩
    rw [g6]
    exact Heap.read_write_same hw

/-! ## The doubly linked list -/

namespace DLL

theorem repr_mono {m m1 : NodeHeap}
    (h : ∀ (a : Nat) (n : Node), m[a]? = some n →
      ∃ n1 : Node, m1[a]? = some n1 ∧ n1.next_ = n.next_ ∧ n1.value_ = n.value_) :
    ∀ (xs : List Int) (p : Option Addr), Repr m p xs → Repr m1 p xs := by
  intro xs
  induction xs with
  | nil =>
    intro p hp
    cases p with
    | none => trivial
    | some a => exact hp.elim
  | cons v xs ih =>
    intro p hp
    cases p with
    | none => exact hp.elim
    | some a =>
      obtain ⟨n, hn, hv, hr⟩ := hp
      obtain ⟨n1, h1, h2, h3⟩ := h a n hn
      exact ⟨n1, h1, h3.trans hv, ih _ (h2 ▸ hr)⟩

theorem visitFrom_of_repr (m : NodeHeap) :
    ∀ (xs : List Int) (p : Option Addr), Repr m p xs → ∀ fuel, xs.length < fuel →
      visitFrom m { curr_ := none } fuel { curr_ := p } = some xs := by
  intro xs
  induction xs with
  | nil =>
    intro p hp fuel hf
    cases p with
    | some a => exact hp.elim
    | none =>
      cases fuel with
      | zero => exact absurd hf (Nat.lt_irrefl _)
      | succ k => simp [visitFrom, DLLIterator.ne]
  | cons v xs ih =>
    intro p hp fuel hf
    cases p with
    | none => exact hp.elim
    | some a =>
      obtain ⟨n, hn, hv, hr⟩ := hp
      cases fuel with
      | zero => exact absurd hf (Nat.not_lt_zero _)
      | succ k =>
        have hk : xs.length < k := by simpa using hf
        have := ih n.next_ hr k hk
        simp [visitFrom, DLLIterator.ne, DLLIterator.star, DLLIterator.inc, hn, this, hv]

end DLL

namespace DLL

theorem update_last (m : NodeHeap) (x : Node) (f : Node → Node) :
    NodeHeap.update (m ++ [x]) m.length f = some (m ++ [f x]) := by
  have e : (m ++ [x]).set m.length (f x) = m ++ [f x] := by
    rw [List.set_append_right _ _ (Nat.le_refl _)]
    simp
  simp [NodeHeap.update, e]

theorem InsertAtHead_null (m : NodeHeap) (d : DLL) (val : Int) (hh : d.head_ = none)
    (hm : m.length < maxNodes) :
    InsertAtHead m d val = some (m ++ [{ next_ := none, prev_ := none, value_ := val }],
      { head_ := some m.length, size_ := (d.size_ + 1) % 2 ^ SIZE_BITS }) := by
  unfold InsertAtHead
  rw [if_pos hm]
  simp only [update_last, hh]
  rfl

theorem InsertAtHead_node (m : NodeHeap) (d : DLL) (val : Int) (h : Addr) (n : Node)
    (hh : d.head_ = some h) (hn : m[h]? = some n) (hm : m.length < maxNodes) :
    InsertAtHead m d val =
      some ((m ++ [({ next_ := some h, prev_ := none, value_ := val } : Node)]).set h
          { n with prev_ := some m.length },
        { head_ := some m.length, size_ := (d.size_ + 1) % 2 ^ SIZE_BITS }) := by
  have hlt : h < m.length := by
    by_contra hc
    rw [List.getElem?_eq_none (Nat.le_of_not_lt hc)] at hn
    cases hn
  have hn2 : (m ++ [({ next_ := some h, prev_ := none, value_ := val } : Node)])[h]?
      = some n := by
    rw [List.getElem?_append_left hlt]
    exact hn
  unfold InsertAtHead
  rw [if_pos hm]
  simp only [update_last, hh, Node.new]
  simp only [NodeHeap.update, hn2]

theorem InsertAtHead_mem {m m1 : NodeHeap} {d d1 : DLL} {val : Int}
    (h : InsertAtHead m d val = some (m1, d1)) : m.length < maxNodes := by
  unfold InsertAtHead at h
  by_contra hc
  rw [if_neg hc] at h
  cases h

theorem InsertAtHead_spec {m : NodeHeap} {d : DLL} {xs : List Int} (hwf : WF m d xs)
    (val : Int) (hm : m.length < maxNodes) :
    ∃ m1 d1, InsertAtHead m d val = some (m1, d1) ∧ WF m1 d1 (val :: xs) ∧
      d1.size_ = d.size_ + 1 ∧ m1.length = m.length + 1 := by
  have hsize : (d.size_ + 1) % 2 ^ SIZE_BITS = d.size_ + 1 := by
    apply Nat.mod_eq_of_lt
    have h1 := hwf.size
    have h2 := hwf.bound
    have h3 : m.length < 2 ^ SIZE_BITS - 1 := hm
    omega
  cases hh : d.head_ with
  | none =>
    refine ⟨_, _, InsertAtHead_null m d val hh hm, ⟨?_, ?_, ?_⟩, hsize, by simp⟩
    · refine ⟨{ next_ := none, prev_ := none, value_ := val }, by simp, rfl, ?_⟩
      have hc := hwf.chain
      rw [hh] at hc
      cases xs with
      | nil => trivial
      | cons v xs => exact hc.elim
    · show (d.size_ + 1) % 2 ^ SIZE_BITS = (val :: xs).length
      rw [hsize, hwf.size]
      rfl
    · have := hwf.bound
      simp
      omega
  | some h =>
    have hc := hwf.chain
    rw [hh] at hc
    cases xs with
    | nil => exact hc.elim
    | cons v xs =>
      obtain ⟨n, hn, hv, hr⟩ := hc
      have hlt : h < m.length := by
        by_contra hc
        rw [List.getElem?_eq_none (Nat.le_of_not_lt hc)] at hn
        cases hn
      have hne : h ≠ m.length := Nat.ne_of_lt hlt
      refine ⟨_, _, InsertAtHead_node m d val h n hh hn hm, ⟨?_, ?_, ?_⟩, hsize, by simp⟩
      · refine ⟨{ next_ := some h, prev_ := none, value_ := val }, ?_, rfl, ?_⟩
        · rw [List.getElem?_set_ne hne]
          simp
        · have hold : Repr m (some h) (v :: xs) := ⟨n, hn, hv, hr⟩
          refine repr_mono ?_ (v :: xs) (some h) hold
          intro a k hk
          have hka : a < m.length := by
            by_contra hc
            rw [List.getElem?_eq_none (Nat.le_of_not_lt hc)] at hk
            cases hk
          by_cases e : a = h
          · subst e
            rw [hn] at hk
            cases hk
            refine ⟨{ n with prev_ := some m.length }, ?_, rfl, rfl⟩
            rw [List.getElem?_set_self (by simp; omega)]
          · refine ⟨k, ?_, rfl, rfl⟩
            rw [List.getElem?_set_ne (fun e2 => e e2.symm), List.getElem?_append_left hka]
            exact hk
      · show (d.size_ + 1) % 2 ^ SIZE_BITS = (val :: v :: xs).length
        rw [hsize, hwf.size]
        rfl
      · have := hwf.bound
        simp at this ⊢
        omega

end DLL

namespace DLL

theorem wf_new (m : NodeHeap) : WF m DLL.new [] :=
  ⟨trivial, rfl, Nat.zero_le _⟩

theorem insertAll_spec (vs : List Int) :
    ∀ (m : NodeHeap) (d : DLL) (xs : List Int), WF m d xs →
      m.length + vs.length ≤ maxNodes →
      ∃ m1 d1, insertAll m d vs = some (m1, d1) ∧ WF m1 d1 (vs.reverse ++ xs) ∧
        m1.length = m.length + vs.length := by
  induction vs with
  | nil =>
    intro m d xs hwf _
    exact ⟨m, d, rfl, by simpa using hwf, rfl⟩
  | cons v vs ih =>
    intro m d xs hwf hm
    have hlen : (v :: vs).length = vs.length + 1 := rfl
    have hm1 : m.length < maxNodes := by omega
    obtain ⟨m1, d1, h1, hwf1, -, hl1⟩ := InsertAtHead_spec hwf v hm1
    obtain ⟨m2, d2, h2, hwf2, hl2⟩ := ih m1 d1 (v :: xs) hwf1 (by omega)
    refine ⟨m2, d2, by simp only [insertAll, h1, h2], ?_, by omega⟩
    simpa using hwf2

theorem visit_of_wf {m : NodeHeap} {d : DLL} {xs : List Int} (hwf : WF m d xs) (fuel : Nat)
    (hf : xs.length < fuel) : visit m d fuel = some xs :=
  visitFrom_of_repr m xs d.head_ hwf.chain fuel hf

theorem wf_demo : WF demoNodes demoDLL [1, 2, 3, 4, 5, 6] := by
  obtain ⟨m, d, h, hwf, -⟩ := insertAll_spec [6, 5, 4, 3, 2, 1] [] DLL.new [] (wf_new [])
    (by decide)
  have e : insertAll [] DLL.new [6, 5, 4, 3, 2, 1] = some (demoNodes, demoDLL) := by decide
  rw [e] at h
  cases h
  exact hwf

end DLL

/-- C9: for a list `d` that satisfies the representation invariant of `DLL`
with contents `xs` (every list built by `DLL()` and `InsertAtHead` does), and as
long as `new Node` can still allocate, `d.InsertAtHead(val)` returns; iterating
from `Begin()` to `End()` visited `xs` before the call and visits `val`
followed by `xs` after it; `size_` has grown by exactly 1 (no wrap-around);
the invariant holds again. -/
theorem C9_insert_at_head (m : NodeHeap) (d : DLL) (xs : List Int) (val : Int)
    (hwf : DLL.WF m d xs) (hm : m.length < maxNodes) :
    ∃ m1 d1, DLL.InsertAtHead m d val = some (m1, d1) ∧
      (∀ fuel, xs.length < fuel → DLL.visit m d fuel = some xs) ∧
      (∀ fuel, xs.length + 1 < fuel → DLL.visit m1 d1 fuel = some (val :: xs)) ∧
      d1.size_ = d.size_ + 1 ∧ DLL.WF m1 d1 (val :: xs) := by
  obtain ⟨m1, d1, h1, hwf1, hs, -⟩ := DLL.InsertAtHead_spec hwf val hm
  exact ⟨m1, d1, h1, fun fuel hf => DLL.visit_of_wf hwf fuel hf,
    fun fuel hf => DLL.visit_of_wf hwf1 fuel (by simpa using hf), hs, hwf1⟩

/-- C9 at the list of `main` (values 1 to 6), inserting 0. -/
theorem C9_insert_at_head_witness :
    (DLL.WF demoNodes demoDLL [1, 2, 3, 4, 5, 6] ∧ demoNodes.length < maxNodes) ∧
    ∃ m1 d1, DLL.InsertAtHead demoNodes demoDLL 0 = some (m1, d1) ∧
      (∀ fuel, [1, 2, 3, 4, 5, 6].length < fuel →
        DLL.visit demoNodes demoDLL fuel = some [1, 2, 3, 4, 5, 6]) ∧
      (∀ fuel, [1, 2, 3, 4, 5, 6].length + 1 < fuel →
        DLL.visit m1 d1 fuel = some (0 :: [1, 2, 3, 4, 5, 6])) ∧
      d1.size_ = demoDLL.size_ + 1 ∧ DLL.WF m1 d1 (0 :: [1, 2, 3, 4, 5, 6]) :=
  ⟨⟨DLL.wf_demo, by decide⟩,
    C9_insert_at_head demoNodes demoDLL [1, 2, 3, 4, 5, 6] 0 DLL.wf_demo (by decide)⟩

/-- C10: inserting `v1, ..., vn` in that order with `InsertAtHead` into an empty
`DLL` (while `new Node` can allocate) returns a list whose iteration from
`Begin()` to `End()` visits `vn, ..., v1`, and whose `size_` is `n`.
Inserting 6, 5, 4, 3, 2, 1 gives the visit 1, 2, 3, 4, 5, 6, printed by the
loop of `main` as `1 2 3 4 5 6 `. -/
theorem C10_visit_is_reverse (m0 : NodeHeap) (vs : List Int)
    (hm : m0.length + vs.length ≤ maxNodes) :
    (∃ m d, DLL.insertAll m0 DLL.new vs = some (m, d) ∧
      (∀ fuel, vs.length < fuel → DLL.visit m d fuel = some vs.reverse) ∧
      d.size_ = vs.length) ∧
    (∃ m d, DLL.insertAll [] DLL.new [6, 5, 4, 3, 2, 1] = some (m, d) ∧
      DLL.visit m d 7 = some [1, 2, 3, 4, 5, 6] ∧
      (DLL.visit m d 7).map DLL.printed = some "1 2 3 4 5 6 ") := by
  constructor
  · obtain ⟨m, d, h, hwf, -⟩ := DLL.insertAll_spec vs m0 DLL.new [] (DLL.wf_new m0) hm
    rw [List.append_nil] at hwf
    refine ⟨m, d, h, fun fuel hf => DLL.visit_of_wf hwf fuel (by simpa using hf), ?_⟩
    rw [hwf.size, List.length_reverse]
  · exact ⟨demoNodes, demoDLL, by decide, by decide, by decide⟩

/-- C10 at the insertions 3, 2, 1 into an empty list on an empty heap. -/
theorem C10_visit_is_reverse_witness :
    (([] : NodeHeap).length + [3, 2, 1].length ≤ maxNodes) ∧
    ((∃ m d, DLL.insertAll [] DLL.new [3, 2, 1] = some (m, d) ∧
      (∀ fuel, [3, 2, 1].length < fuel → DLL.visit m d fuel = some [3, 2, 1].reverse) ∧
      d.size_ = [3, 2, 1].length) ∧
    (∃ m d, DLL.insertAll [] DLL.new [6, 5, 4, 3, 2, 1] = some (m, d) ∧
      DLL.visit m d 7 = some [1, 2, 3, 4, 5, 6] ∧
      (DLL.visit m d 7).map DLL.printed = some "1 2 3 4 5 6 ")) :=
  ⟨by decide, C10_visit_is_reverse [] [3, 2, 1] (by decide)⟩

/-! ## Iterator positions -/

namespace DLL

theorem insertAll_wf (vs : List Int) :
    ∀ (m : NodeHeap) (d : DLL) (xs : List Int) (m1 : NodeHeap) (d1 : DLL), WF m d xs →
      insertAll m d vs = some (m1, d1) → WF m1 d1 (vs.reverse ++ xs) := by
  induction vs with
  | nil =>
    intro m d xs m1 d1 hwf h
    simp only [insertAll, Option.some.injEq, Prod.mk.injEq] at h
    obtain ⟨e1, e2⟩ := h
    subst e1
    subst e2
    simpa using hwf
  | cons v vs ih =>
    intro m d xs m1 d1 hwf h
    simp only [insertAll] at h
    cases hi : InsertAtHead m d v with
    | none => simp [hi] at h
    | some r =>
      obtain ⟨m2, d2⟩ := r
      simp only [hi] at h
      obtain ⟨m3, d3, h3, hwf3, -, -⟩ := InsertAtHead_spec hwf v (InsertAtHead_mem hi)
      rw [hi] at h3
      simp only [Option.some.injEq, Prod.mk.injEq] at h3
      obtain ⟨e1, e2⟩ := h3
      subst e1
      subst e2
      have := ih m2 d2 (v :: xs) m1 d1 hwf3 h
      simpa using this

theorem advance_of_repr (m : NodeHeap) :
    ∀ (xs : List Int) (p : Option Addr) (k : Nat), Repr m p xs → k < xs.length →
      ∃ it n, DLLIterator.advance m k { curr_ := p } = some it ∧
        kthNode m k p = some n ∧ it.curr_ ≠ none ∧
        it.star m = some n.value_ ∧ xs[k]? = some n.value_ := by
  intro xs
  induction xs with
  | nil =>
    intro p k _ hk
    exact absurd hk (Nat.not_lt_zero _)
  | cons v xs ih =>
    intro p k hp hk
    cases p with
    | none => exact hp.elim
    | some a =>
      obtain ⟨n, hn, hv, hr⟩ := hp
      cases k with
      | zero =>
        refine ⟨{ curr_ := some a }, n, rfl, by simp [kthNode, hn], by simp, ?_, ?_⟩
        · simp [DLLIterator.star, hn]
        · simp [hv]
      | succ k =>
        have hk2 : k < xs.length := by simpa using hk
        obtain ⟨it, n2, h1, h2, h3, h4, h5⟩ := ih n.next_ k hr hk2
        refine ⟨it, n2, ?_, ?_, h3, h4, ?_⟩
        · simp [DLLIterator.advance, DLLIterator.inc, hn, h1]
        · simp [kthNode, hn, h2]
        · simpa using h5

end DLL

/-- C11: for a list built from `DLL()` by `InsertAtHead` calls (values `vs`, in
call order) and every `k` below its `size_`, `k` increments of `Begin()`
succeed and the resulting iterator is not `End()`; `*it` returns the `value_`
of the `k`-th node counted from the head, which is the `k`-th element of the
reversed insertion order.  `operator*` contains no assignment: it is a function
of heap and iterator that yields only the value, so neither is changed. -/
theorem C11_kth_dereference (m0 m : NodeHeap) (d : DLL) (vs : List Int) (k : Nat)
    (hb : DLL.insertAll m0 DLL.new vs = some (m, d)) (hk : k < d.size_) :
    ∃ it n, DLLIterator.advance m k d.Begin = some it ∧ kthNode m k d.head_ = some n ∧
      it.ne d.End = true ∧ it.star m = some n.value_ ∧ vs.reverse[k]? = some n.value_ := by
  have hwf := DLL.insertAll_wf vs m0 DLL.new [] m d (DLL.wf_new m0) hb
  rw [List.append_nil] at hwf
  have hk2 : k < vs.reverse.length := by rw [← hwf.size]; exact hk
  obtain ⟨it, n, h1, h2, h3, h4, h5⟩ := DLL.advance_of_repr m vs.reverse d.head_ k hwf.chain hk2
  refine ⟨it, n, h1, h2, ?_, h4, h5⟩
  cases hc : it.curr_ with
  | none => exact absurd hc h3
  | some a => simp [DLLIterator.ne, DLL.End, hc]

/-- C11 at the list of `main`: two increments from `Begin()` reach the value 3. -/
theorem C11_kth_dereference_witness :
    (DLL.insertAll [] DLL.new [6, 5, 4, 3, 2, 1] = some (demoNodes, demoDLL) ∧
      2 < demoDLL.size_) ∧
    ∃ it n, DLLIterator.advance demoNodes 2 demoDLL.Begin = some it ∧
      kthNode demoNodes 2 demoDLL.head_ = some n ∧
      it.ne demoDLL.End = true ∧ it.star demoNodes = some n.value_ ∧
      ([6, 5, 4, 3, 2, 1] : List Int).reverse[2]? = some n.value_ :=
  ⟨by decide, C11_kth_dereference [] demoNodes demoDLL [6, 5, 4, 3, 2, 1] 2
    (by decide) (by decide)⟩

/-! ## The two increment operators -/

namespace DLL

theorem visitFromPost_eq (m : NodeHeap) (stop : DLLIterator) :
    ∀ (fuel : Nat) (it : DLLIterator), visitFromPost m stop fuel it = visitFrom m stop fuel it := by
  intro fuel
  induction fuel with
  | zero => intro it; rfl
  | succ k ih =>
    intro it
    simp only [visitFromPost, visitFrom, DLLIterator.incPost]
    cases it.inc m with
    | none => rfl
    | some it1 => simp only [ih]

end DLL

/-- C12: for an iterator `it` whose `curr_` points at a node `n`, `it++`
returns an iterator that compares equal (`operator==`) to `it` as it was, and
leaves the iterator in the state `++it` leaves it in, namely with `curr_` equal
to `n.next_`; that state is what the reference returned by `++it` denotes.
Hence the loop with `iter++` visits what the loop with `++iter` visits, from
every start, to every stop, with every fuel; for the list of `main` both loops
visit 1, 2, 3, 4, 5, 6. -/
theorem C12_increment_operators (m : NodeHeap) (it : DLLIterator) (a : Addr) (n : Node)
    (hc : it.curr_ = some a) (hn : m[a]? = some n) :
    (∃ ret it1, it.incPost m = some (ret, it1) ∧ ret.eq it = true ∧
      it.inc m = some it1 ∧ it1.curr_ = n.next_) ∧
    (∀ (stop j : DLLIterator) (fuel : Nat),
      DLL.visitFromPost m stop fuel j = DLL.visitFrom m stop fuel j) ∧
    (DLL.visit demoNodes demoDLL 7 = some [1, 2, 3, 4, 5, 6] ∧
      DLL.visitPost demoNodes demoDLL 7 = some [1, 2, 3, 4, 5, 6]) := by
  refine ⟨⟨it, { curr_ := n.next_ }, ?_, ?_, ?_, rfl⟩,
    fun stop j fuel => DLL.visitFromPost_eq m stop fuel j, by decide, by decide⟩
  · simp [DLLIterator.incPost, DLLIterator.inc, hc, hn]
  · simp [DLLIterator.eq]
  · simp [DLLIterator.inc, hc, hn]

/-- C12 at `Begin()` of the list of `main` (node 5, value 1). -/
theorem C12_increment_operators_witness :
    (demoDLL.Begin.curr_ = some 5 ∧
      demoNodes[5]? = some { next_ := some 4, prev_ := none, value_ := 1 }) ∧
    ((∃ ret it1, demoDLL.Begin.incPost demoNodes = some (ret, it1) ∧
      ret.eq demoDLL.Begin = true ∧
      demoDLL.Begin.inc demoNodes = some it1 ∧ it1.curr_ = some 4) ∧
    (∀ (stop j : DLLIterator) (fuel : Nat),
      DLL.visitFromPost demoNodes stop fuel j = DLL.visitFrom demoNodes stop fuel j) ∧
    (DLL.visit demoNodes demoDLL 7 = some [1, 2, 3, 4, 5, 6] ∧
      DLL.visitPost demoNodes demoDLL 7 = some [1, 2, 3, 4, 5, 6])) :=
  ⟨by decide, C12_increment_operators demoNodes demoDLL.Begin 5
    { next_ := some 4, prev_ := none, value_ := 1 } (by decide) (by decide)⟩

/-! ## `Person`: move construction and move assignment -/

namespace Person

theorem update_eq {w : PersonState} {i : Nat} {p : Person} (h : w.objs[i]? = some p)
    (f : Person → Person) :
    w.update i f = some { w with objs := w.objs.set i (f p) } := by
  simp [PersonState.update, h]

theorem getElem?_lt {l : List Person} {i : Nat} {p : Person} (h : l[i]? = some p) :
    i < l.length := by
  by_contra hc
  rw [List.getElem?_eq_none (Nat.le_of_not_lt hc)] at h
  cases h

theorem moveAssign_person_spec (w : PersonState) (dst src : Nat) (d s : Person)
    (rest : List String)
    (hne : dst ≠ src) (hd : w.objs[dst]? = some d) (hs : w.objs[src]? = some s) :
    ∃ w1, moveAssign w dst src rest = some w1 ∧
      w1.objs[dst]? = some { age_ := s.age_, nicknames_ := s.nicknames_, valid_ := true } ∧
      w1.objs[src]? = some { age_ := s.age_, nicknames_ := rest, valid_ := false } ∧
      (∀ k, k ≠ dst → k ≠ src → w1.objs[k]? = w.objs[k]?) ∧
      w1.out = w.out ++ "Calling the move assignment operator for class Person.\n" := by
  have hdl := getElem?_lt hd
  have hsl := getElem?_lt hs
  have hne2 : src ≠ dst := fun e => hne e.symm
  refine ⟨PersonState.mk
    (((((w.objs.set dst (Person.mk s.age_ d.nicknames_ d.valid_)).set dst
      (Person.mk s.age_ s.nicknames_ d.valid_)).set src
      (Person.mk s.age_ rest s.valid_)).set dst
      (Person.mk s.age_ s.nicknames_ true)).set src
      (Person.mk s.age_ rest false))
    (w.out ++ "Calling the move assignment operator for class Person.\n"),
    ?_, ?_, ?_, ?_, rfl⟩
  · have hs2 : w.objs[src] = s := by
      have := List.getElem?_eq_getElem hsl
      rw [this] at hs
      exact Option.some.inj hs
    have hd2 : w.objs[dst] = d := by
      have := List.getElem?_eq_getElem hdl
      rw [this] at hd
      exact Option.some.inj hd
    simp [moveAssign, PersonState.update, PersonState.print, hd, hs, hdl, hsl,
      List.getElem?_set, hne, hne2, hs2, hd2]
  · simp [List.getElem?_set, hdl, hsl, hne, hne2]
  · simp [List.getElem?_set, hdl, hsl, hne, hne2]
  · intro k hk1 hk2
    have h1 : dst ≠ k := fun e => hk1 e.symm
    have h2 : src ≠ k := fun e => hk2 e.symm
    simp [List.getElem?_set, h1, h2]

theorem moveCtor_person_spec (w : PersonState) (src : Nat) (s : Person)
    (hs : w.objs[src]? = some s) :
    ∃ w1, moveCtor w src = some (w.objs.length, w1) ∧
      w1.objs[w.objs.length]? =
        some { age_ := s.age_, nicknames_ := s.nicknames_, valid_ := true } ∧
      w1.objs[src]? = some { age_ := s.age_, nicknames_ := [], valid_ := false } ∧
      (∀ k, k ≠ w.objs.length → k ≠ src → w1.objs[k]? = w.objs[k]?) ∧
      w1.out = w.out ++ "Calling the move constructor for class Person.\n" := by
  have hsl := getElem?_lt hs
  have hne : src ≠ w.objs.length := Nat.ne_of_lt hsl
  refine ⟨PersonState.mk
    ((w.objs.set src { s with nicknames_ := [] } ++
      [Person.mk s.age_ s.nicknames_ true]).set src (Person.mk s.age_ [] false))
    (w.out ++ "Calling the move constructor for class Person.\n"), ?_, ?_, ?_, ?_, rfl⟩
  · have h1 : (w.objs.set src { s with nicknames_ := [] } ++
        [({ age_ := s.age_, nicknames_ := s.nicknames_, valid_ := true } : Person)])[src]?
        = some { s with nicknames_ := [] } := by
      rw [List.getElem?_append_left (by simpa using hsl)]
      simp [List.getElem?_set, hsl]
    simp [moveCtor, PersonState.update, PersonState.print, PersonState.push, hs, h1]
  · rw [List.getElem?_set_ne hne]
    have : w.objs.length = (w.objs.set src { s with nicknames_ := [] }).length := by simp
    rw [this, List.getElem?_append_right (Nat.le_refl _)]
    simp
  · rw [List.getElem?_set_self (by simp; omega)]
  · intro k hk1 hk2
    have h2 : src ≠ k := fun e => hk2 e.symm
    rw [List.getElem?_set_ne h2]
    by_cases hlt : k < w.objs.length
    · rw [List.getElem?_append_left (by simpa using hlt), List.getElem?_set_ne h2]
    · have hge : w.objs.length < k := by omega
      rw [List.getElem?_eq_none (by simp; omega), List.getElem?_eq_none (by omega)]

end Person

/-- C13: in a state `w`, for distinct objects `dst` and `src`,
`dst = std::move(src)` succeeds and leaves `dst` with the former age and the
former nickname list of `src` (same order) and valid, and `src` invalid with its
`age_` unchanged.  In any state `wc` (no other object is needed),
move-constructing a new object from `std::move(csrc)` succeeds and does the same
for the new object.  In `main` the contents of
`Person(15445, {"andy", "pavlo"})` go from `andy` to `andy1` to `andy2`: `andy2`
is valid with age 15445 and nicknames andy, pavlo, while `andy` and `andy1` are
invalid. -/
theorem C13_person_moves (w wc : PersonState) (dst src csrc : Nat) (d s cs : Person)
    (rest : List String)
    (hne : dst ≠ src) (hd : w.objs[dst]? = some d) (hs : w.objs[src]? = some s)
    (hcs : wc.objs[csrc]? = some cs) :
    (∃ w1 s1, Person.moveAssign w dst src rest = some w1 ∧
      w1.objs[dst]? = some { age_ := s.age_, nicknames_ := s.nicknames_, valid_ := true } ∧
      w1.objs[src]? = some s1 ∧ s1.valid_ = false ∧ s1.age_ = s.age_) ∧
    (∃ new w1 s1, Person.moveCtor wc csrc = some (new, w1) ∧ wc.objs[new]? = none ∧
      w1.objs[new]? = some { age_ := cs.age_, nicknames_ := cs.nicknames_, valid_ := true } ∧
      w1.objs[csrc]? = some s1 ∧ s1.valid_ = false ∧ s1.age_ = cs.age_) ∧
    (∃ w2 andy andy1, Person.mainRun rest = some w2 ∧
      w2.objs[0]? = some andy ∧ andy.valid_ = false ∧
      w2.objs[1]? = some andy1 ∧ andy1.valid_ = false ∧
      w2.objs[2]? = some { age_ := 15445, nicknames_ := ["andy", "pavlo"], valid_ := true } ∧
      Person.GetAge w2 2 = some 15445 ∧ Person.GetNicknameAtI w2 2 0 = some "andy" ∧
      Person.GetNicknameAtI w2 2 1 = some "pavlo") := by
  refine ⟨?_, ?_, ?_⟩
  · obtain ⟨w1, h1, h2, h3, -, -⟩ := Person.moveAssign_person_spec w dst src d s rest hne hd hs
    exact ⟨w1, _, h1, h2, h3, rfl, rfl⟩
  · obtain ⟨w1, h1, h2, h3, -, -⟩ := Person.moveCtor_person_spec wc csrc cs hcs
    exact ⟨_, w1, _, h1, by simp, h2, h3, rfl, rfl⟩
  · exact ⟨PersonState.mk
      [Person.mk 15445 rest false, Person.mk 15445 [] false,
        Person.mk 15445 ["andy", "pavlo"] true]
      ("Object is valid.\nCalling the move assignment operator for class Person.\n" ++
        "Object is valid.\nObject is invalid.\n" ++
        "Calling the move constructor for class Person.\n" ++
        "Object is valid.\nObject is invalid.\n"),
      _, _, rfl, rfl, rfl, rfl, rfl, rfl, rfl, rfl, rfl⟩

/-- C13 at `andy1 = std::move(andy)` in the two-object state of `main`, and at a
move construction from `andy` when `andy` is the only `Person` object. -/
theorem C13_person_moves_witness :
    ((1 : Nat) ≠ 0 ∧ demoPeople.objs[1]? = some { age_ := 0, nicknames_ := [], valid_ := true } ∧
      demoPeople.objs[0]? =
        some { age_ := 15445, nicknames_ := ["andy", "pavlo"], valid_ := true } ∧
      demoSolo.objs[0]? =
        some { age_ := 15445, nicknames_ := ["andy", "pavlo"], valid_ := true }) ∧
    ((∃ w1 s1, Person.moveAssign demoPeople 1 0 [] = some w1 ∧
      w1.objs[1]? = some { age_ := 15445, nicknames_ := ["andy", "pavlo"], valid_ := true } ∧
      w1.objs[0]? = some s1 ∧ s1.valid_ = false ∧ s1.age_ = 15445) ∧
    (∃ new w1 s1, Person.moveCtor demoSolo 0 = some (new, w1) ∧
      demoSolo.objs[new]? = none ∧
      w1.objs[new]? = some { age_ := 15445, nicknames_ := ["andy", "pavlo"], valid_ := true } ∧
      w1.objs[0]? = some s1 ∧ s1.valid_ = false ∧ s1.age_ = 15445) ∧
    (∃ w2 andy andy1, Person.mainRun [] = some w2 ∧
      w2.objs[0]? = some andy ∧ andy.valid_ = false ∧
      w2.objs[1]? = some andy1 ∧ andy1.valid_ = false ∧
      w2.objs[2]? = some { age_ := 15445, nicknames_ := ["andy", "pavlo"], valid_ := true } ∧
      Person.GetAge w2 2 = some 15445 ∧ Person.GetNicknameAtI w2 2 0 = some "andy" ∧
      Person.GetNicknameAtI w2 2 1 = some "pavlo")) :=
  ⟨⟨by decide, rfl, rfl, rfl⟩, C13_person_moves demoPeople demoSolo 1 0 0
    { age_ := 0, nicknames_ := [], valid_ := true }
    { age_ := 15445, nicknames_ := ["andy", "pavlo"], valid_ := true }
    { age_ := 15445, nicknames_ := ["andy", "pavlo"], valid_ := true } []
    (by decide) rfl rfl rfl⟩

/-! ## `add_three_and_print` -/

theorem foldl_spaced (xs : List Int) :
    ∀ acc : String, xs.foldl (fun acc item => acc ++ toString item ++ " ") acc
      = acc ++ spaced xs := by
  induction xs with
  | nil =>
    intro acc
    simp [spaced]
  | cons x rest ih =>
    intro acc
    rw [List.foldl_cons, ih]
    simp only [spaced, String.append_assoc]

/-- C14: `add_three_and_print(std::move(v))` leaves the caller's vector equal to
the old `v` with 3 appended, and appends to `std::cout` exactly the elements of
that vector in order, each followed by a space, then a newline.  For
`{1, 2, 3, 4}` the caller still reads `v[1] = 2` afterwards, and the text
printed is `1 2 3 4 3 ` and a newline. -/
theorem C14_add_three_and_print (v : List Int) (out : String) :
    (add_three_and_print v out).1 = v ++ [3] ∧
    (add_three_and_print v out).2 = out ++ spaced (v ++ [3]) ++ "\n" ∧
    (add_three_and_print [1, 2, 3, 4] "").1[1]? = some 2 ∧
    (add_three_and_print [1, 2, 3, 4] "").2 = "1 2 3 4 3 \n" := by
  refine ⟨rfl, ?_, by decide, by decide⟩
  simp only [add_three_and_print, foldl_spaced]

/-! ## Two threads and a mutex -/

namespace CountState

theorem scoped_eq_mutex : ScopedLockCpp.add_count = MutexCpp.add_count := by
  funext me count m th
  rfl

theorem init_count_inv : Inv init := by
  refine ⟨?_, ?_, ?_, ?_, ?_, ?_, ?_, ?_⟩ <;> decide

theorem step_t1_inv {s s1 : CountState} (hI : Inv s)
    (h : step MutexCpp.add_count s Tid.t1 = some s1) : Inv s1 := by
  obtain ⟨count, m, ⟨p1, r1⟩, ⟨p2, r2⟩⟩ := s
  obtain ⟨h1, h2, o1, o2, o3, g1, g2, hc⟩ := hI
  simp only at h1 h2 o1 o2 o3 g1 g2 hc
  simp only [step] at h
  interval_cases p1 <;> rcases m with _ | ⟨_ | _ | _⟩ <;>
    simp [MutexCpp.add_count] at h <;> subst h <;>
    refine ⟨?_, ?_, ?_, ?_, ?_, ?_, ?_, ?_⟩ <;>
    first
      | (simp_all; done)
      | (simp_all; omega)

theorem step_t2_inv {s s1 : CountState} (hI : Inv s)
    (h : step MutexCpp.add_count s Tid.t2 = some s1) : Inv s1 := by
  obtain ⟨count, m, ⟨p1, r1⟩, ⟨p2, r2⟩⟩ := s
  obtain ⟨h1, h2, o1, o2, o3, g1, g2, hc⟩ := hI
  simp only at h1 h2 o1 o2 o3 g1 g2 hc
  simp only [step] at h
  interval_cases p2 <;> rcases m with _ | ⟨_ | _ | _⟩ <;>
    simp [MutexCpp.add_count] at h <;> subst h <;>
    refine ⟨?_, ?_, ?_, ?_, ?_, ?_, ?_, ?_⟩ <;>
    first
      | (simp_all; done)
      | (simp_all; omega)

theorem step_count_inv {s s1 : CountState} (hI : Inv s) (t : Tid)
    (h : step MutexCpp.add_count s t = some s1) : Inv s1 := by
  cases t with
  | t1 => exact step_t1_inv hI h
  | t2 => exact step_t2_inv hI h
  | t3 => simp [step] at h

theorem run_count_inv (sched : List Tid) :
    ∀ s : CountState, Inv s → Inv (run MutexCpp.add_count s sched) := by
  induction sched with
  | nil => intro s hI; exact hI
  | cons t ts ih =>
    intro s hI
    simp only [run]
    cases hs : step MutexCpp.add_count s t with
    | none => exact ih s hI
    | some s1 => exact ih s1 (step_count_inv hI t hs)

theorem joined_count {s : CountState} (hI : Inv s) (hj : s.joined = true) : s.count = 2 := by
  have hc := hI.cnt
  simp only [joined, Bool.and_eq_true, beq_iff_eq] at hj
  rw [hj.1, hj.2] at hc
  simpa using hc

end CountState

namespace CountState

theorem run_append (body : Tid → Int → Option Tid → Worker → Option (Int × Option Tid × Worker))
    (a b : List Tid) : ∀ s : CountState, run body s (a ++ b) = run body (run body s a) b := by
  induction a with
  | nil => intro s; rfl
  | cons t ts ih =>
    intro s
    simp only [List.cons_append, run]
    cases step body s t with
    | none => exact ih s
    | some s1 => exact ih s1

theorem progress {s : CountState} (hI : Inv s) (hj : s.joined = false) :
    ∃ t s1, step MutexCpp.add_count s t = some s1 ∧
      s1.t1.pc + s1.t2.pc = s.t1.pc + s.t2.pc + 1 := by
  obtain ⟨count, m, ⟨p1, r1⟩, ⟨p2, r2⟩⟩ := s
  obtain ⟨h1, h2, o1, o2, o3, -, -, -⟩ := hI
  simp only at h1 h2 o1 o2 o3
  simp only [joined, Bool.and_eq_false_imp, beq_iff_eq, beq_eq_false_iff_ne] at hj
  rcases m with _ | ⟨_ | _ | _⟩
  · by_cases e : p1 = 0
    · subst e
      refine ⟨Tid.t1, ?_⟩
      simp [step, MutexCpp.add_count]
      omega
    · have e1 : p1 = 4 := by
        simp at o1
        omega
      have e2 : p2 = 0 := by
        have := hj e1
        simp at o2
        omega
      subst e2
      refine ⟨Tid.t2, ?_⟩
      simp [step, MutexCpp.add_count]
  · have := o1.mp rfl
    obtain ⟨ha, hb⟩ := this
    interval_cases p1 <;> refine ⟨Tid.t1, ?_⟩ <;> simp [step, MutexCpp.add_count] <;> omega
  · have := o2.mp rfl
    obtain ⟨ha, hb⟩ := this
    interval_cases p2 <;> refine ⟨Tid.t2, ?_⟩ <;> simp [step, MutexCpp.add_count]
  · exact absurd rfl o3

theorem completes (n : Nat) :
    ∀ s : CountState, Inv s → 8 ≤ s.t1.pc + s.t2.pc + n →
      ∃ ext, (run MutexCpp.add_count s ext).joined = true := by
  induction n with
  | zero =>
    intro s hI hn
    refine ⟨[], ?_⟩
    have h1 := hI.pc1
    have h2 := hI.pc2
    have e1 : s.t1.pc = 4 := by omega
    have e2 : s.t2.pc = 4 := by omega
    simp [run, joined, e1, e2]
  | succ k ih =>
    intro s hI hn
    cases hj : s.joined with
    | true => exact ⟨[], by simpa [run] using hj⟩
    | false =>
      obtain ⟨t, s1, hs, hpc⟩ := progress hI hj
      obtain ⟨ext, hext⟩ := ih s1 (step_count_inv hI t hs) (by omega)
      exact ⟨t :: ext, by simpa [run, hs] using hext⟩

theorem main_mutex (sched : List Tid) (out : String)
    (h : main MutexCpp.add_count sched = some out) : out = "Printing count: 2" := by
  unfold main at h
  have hI := run_count_inv sched init init_count_inv
  cases hj : (run MutexCpp.add_count init sched).joined with
  | false => simp [hj] at h
  | true =>
    simp only [hj, if_true, Option.some.injEq] at h
    rw [← h, joined_count hI hj]
    rfl

theorem main_completes (pre : List Tid) :
    ∃ ext, main MutexCpp.add_count (pre ++ ext) = some "Printing count: 2" := by
  have hI := run_count_inv pre init init_count_inv
  obtain ⟨ext, hext⟩ := completes 8 (run MutexCpp.add_count init pre) hI (by omega)
  refine ⟨ext, ?_⟩
  have hI2 := run_count_inv (pre ++ ext) init init_count_inv
  rw [run_append] at hI2
  have hc := joined_count hI2 hext
  simp only [main, run_append, hext, if_true, hc]
  rfl

end CountState

/-- C15: in mutex.cpp and in scoped_lock.cpp, under every interleaving of the
actions of the two threads after which both joins of `main` return, the line
printed by `main` is `Printing count: 2`; and every interleaving can be
continued to such an end (no thread is blocked for ever). -/
theorem C15_count_is_two (sched sched2 : List Tid) (out out2 : String)
    (h : CountState.main MutexCpp.add_count sched = some out)
    (h2 : CountState.main ScopedLockCpp.add_count sched2 = some out2) :
    out = "Printing count: 2" ∧ out2 = "Printing count: 2" ∧
    (∀ pre : List Tid, ∃ ext,
      CountState.main MutexCpp.add_count (pre ++ ext) = some "Printing count: 2") ∧
    (∀ pre : List Tid, ∃ ext,
      CountState.main ScopedLockCpp.add_count (pre ++ ext) = some "Printing count: 2") := by
  rw [CountState.scoped_eq_mutex] at h2 ⊢
  exact ⟨CountState.main_mutex sched out h, CountState.main_mutex sched2 out2 h2,
    CountState.main_completes, CountState.main_completes⟩

/-- C15 at two interleavings in which the threads alternate and the scheduled
thread is sometimes blocked on `m`. -/
theorem C15_count_is_two_witness :
    (CountState.main MutexCpp.add_count
        [Tid.t1, Tid.t2, Tid.t1, Tid.t2, Tid.t1, Tid.t2, Tid.t1, Tid.t2, Tid.t2, Tid.t2, Tid.t2]
        = some "Printing count: 2" ∧
      CountState.main ScopedLockCpp.add_count
        [Tid.t2, Tid.t2, Tid.t1, Tid.t2, Tid.t2, Tid.t1, Tid.t1, Tid.t1, Tid.t1]
        = some "Printing count: 2") ∧
    ("Printing count: 2" = "Printing count: 2" ∧ "Printing count: 2" = "Printing count: 2" ∧
    (∀ pre : List Tid, ∃ ext,
      CountState.main MutexCpp.add_count (pre ++ ext) = some "Printing count: 2") ∧
    (∀ pre : List Tid, ∃ ext,
      CountState.main ScopedLockCpp.add_count (pre ++ ext) = some "Printing count: 2")) :=
  ⟨⟨by decide, by decide⟩, C15_count_is_two
    [Tid.t1, Tid.t2, Tid.t1, Tid.t2, Tid.t1, Tid.t2, Tid.t1, Tid.t2, Tid.t2, Tid.t2, Tid.t2]
    [Tid.t2, Tid.t2, Tid.t1, Tid.t2, Tid.t2, Tid.t1, Tid.t1, Tid.t1, Tid.t1]
    "Printing count: 2" "Printing count: 2" (by decide) (by decide)⟩

/-! ## Three threads, a mutex and a condition variable -/

namespace CvState

theorem lines_append {P : String → Prop} {out : List String} {x : String}
    (h : ∀ l, l ∈ out → P l) (hx : P x) : ∀ l, l ∈ out ++ [x] → P l := by
  intro l hl
  rcases List.mem_append.mp hl with h1 | h1
  · exact h l h1
  · rw [List.mem_singleton.mp h1]
    exact hx

theorem init_cv_inv : Inv init := by
  refine ⟨?_, ?_, ?_, ?_, ?_, ?_, ?_, ?_, ?_, ?_, ?_⟩
  case refine_11 => intro l hl; cases hl
  all_goals decide

set_option linter.unusedTactic false in
set_option linter.unreachableTactic false in
set_option maxHeartbeats 1000000 in
theorem step_cv_t1 {s s1 : CvState} (hI : Inv s)
    (h : step s (CvEvent.run Tid.t1) = some s1) : Inv s1 := by
  obtain ⟨count, m, nt, ⟨p1, r1⟩, ⟨p2, r2⟩, p3, out⟩ := s
  obtain ⟨h1, h2, h3, o1, o2, o3, g1, g2, hc, hp, hl⟩ := hI
  simp only at h1 h2 h3 o1 o2 o3 g1 g2 hc hp hl
  simp only [step] at h
  interval_cases p1
  · rcases m with _ | ⟨_ | _ | _⟩ <;> simp [add_count_and_notify] at h
    subst h
    refine ⟨?_, ?_, ?_, ?_, ?_, ?_, ?_, ?_, ?_, ?_, ?_⟩ <;>
      first
        | assumption
        | exact lines_append hl (Or.inl rfl)
        | (simp_all; done)
        | (simp_all; omega)
  · simp [add_count_and_notify] at h
    subst h
    refine ⟨?_, ?_, ?_, ?_, ?_, ?_, ?_, ?_, ?_, ?_, ?_⟩ <;>
      first
        | assumption
        | exact lines_append hl (Or.inl rfl)
        | (simp_all; done)
        | (simp_all; omega)
  · simp [add_count_and_notify] at h
    subst h
    refine ⟨?_, ?_, ?_, ?_, ?_, ?_, ?_, ?_, ?_, ?_, ?_⟩ <;>
      first
        | assumption
        | exact lines_append hl (Or.inl rfl)
        | (simp_all; done)
        | (simp_all; omega)
  · simp [add_count_and_notify] at h
    subst h
    refine ⟨?_, ?_, ?_, ?_, ?_, ?_, ?_, ?_, ?_, ?_, ?_⟩ <;>
      first
        | assumption
        | exact lines_append hl (Or.inl rfl)
        | (simp_all; done)
        | (simp_all; omega)
  · by_cases hcnt : count = 2
    · subst hcnt
      simp [add_count_and_notify] at h
      subst h
      refine ⟨?_, ?_, ?_, ?_, ?_, ?_, ?_, ?_, ?_, ?_, ?_⟩ <;>
        first
          | assumption
          | exact lines_append hl (Or.inl rfl)
          | (simp_all; done)
          | (simp_all; omega)
    · simp [add_count_and_notify, hcnt] at h
      subst h
      refine ⟨?_, ?_, ?_, ?_, ?_, ?_, ?_, ?_, ?_, ?_, ?_⟩ <;>
        first
          | assumption
          | exact lines_append hl (Or.inl rfl)
          | (simp_all; done)
          | (simp_all; omega)
  · rcases m with _ | ⟨_ | _ | _⟩ <;> simp [add_count_and_notify] at h
    subst h
    refine ⟨?_, ?_, ?_, ?_, ?_, ?_, ?_, ?_, ?_, ?_, ?_⟩ <;>
      first
        | assumption
        | exact lines_append hl (Or.inl rfl)
        | (simp_all; done)
        | (simp_all; omega)
  · simp [add_count_and_notify] at h

set_option linter.unusedTactic false in
set_option linter.unreachableTactic false in
set_option maxHeartbeats 1000000 in
theorem step_cv_t2 {s s1 : CvState} (hI : Inv s)
    (h : step s (CvEvent.run Tid.t2) = some s1) : Inv s1 := by
  obtain ⟨count, m, nt, ⟨p1, r1⟩, ⟨p2, r2⟩, p3, out⟩ := s
  obtain ⟨h1, h2, h3, o1, o2, o3, g1, g2, hc, hp, hl⟩ := hI
  simp only at h1 h2 h3 o1 o2 o3 g1 g2 hc hp hl
  simp only [step] at h
  interval_cases p2
  · rcases m with _ | ⟨_ | _ | _⟩ <;> simp [add_count_and_notify] at h
    subst h
    refine ⟨?_, ?_, ?_, ?_, ?_, ?_, ?_, ?_, ?_, ?_, ?_⟩ <;>
      first
        | assumption
        | exact lines_append hl (Or.inl rfl)
        | (simp_all; done)
        | (simp_all; omega)
  · simp [add_count_and_notify] at h
    subst h
    refine ⟨?_, ?_, ?_, ?_, ?_, ?_, ?_, ?_, ?_, ?_, ?_⟩ <;>
      first
        | assumption
        | exact lines_append hl (Or.inl rfl)
        | (simp_all; done)
        | (simp_all; omega)
  · simp [add_count_and_notify] at h
    subst h
    refine ⟨?_, ?_, ?_, ?_, ?_, ?_, ?_, ?_, ?_, ?_, ?_⟩ <;>
      first
        | assumption
        | exact lines_append hl (Or.inl rfl)
        | (simp_all; done)
        | (simp_all; omega)
  · simp [add_count_and_notify] at h
    subst h
    refine ⟨?_, ?_, ?_, ?_, ?_, ?_, ?_, ?_, ?_, ?_, ?_⟩ <;>
      first
        | assumption
        | exact lines_append hl (Or.inl rfl)
        | (simp_all; done)
        | (simp_all; omega)
  · by_cases hcnt : count = 2
    · subst hcnt
      simp [add_count_and_notify] at h
      subst h
      refine ⟨?_, ?_, ?_, ?_, ?_, ?_, ?_, ?_, ?_, ?_, ?_⟩ <;>
        first
          | assumption
          | exact lines_append hl (Or.inl rfl)
          | (simp_all; done)
          | (simp_all; omega)
    · simp [add_count_and_notify, hcnt] at h
      subst h
      refine ⟨?_, ?_, ?_, ?_, ?_, ?_, ?_, ?_, ?_, ?_, ?_⟩ <;>
        first
          | assumption
          | exact lines_append hl (Or.inl rfl)
          | (simp_all; done)
          | (simp_all; omega)
  · rcases m with _ | ⟨_ | _ | _⟩ <;> simp [add_count_and_notify] at h
    subst h
    refine ⟨?_, ?_, ?_, ?_, ?_, ?_, ?_, ?_, ?_, ?_, ?_⟩ <;>
      first
        | assumption
        | exact lines_append hl (Or.inl rfl)
        | (simp_all; done)
        | (simp_all; omega)
  · simp [add_count_and_notify] at h

set_option linter.unusedTactic false in
set_option linter.unreachableTactic false in
set_option maxHeartbeats 1000000 in
theorem step_cv_t3 {s s1 : CvState} (hI : Inv s)
    (h : step s (CvEvent.run Tid.t3) = some s1) : Inv s1 := by
  obtain ⟨count, m, nt, ⟨p1, r1⟩, ⟨p2, r2⟩, p3, out⟩ := s
  obtain ⟨h1, h2, h3, o1, o2, o3, g1, g2, hc, hp, hl⟩ := hI
  simp only at h1 h2 h3 o1 o2 o3 g1 g2 hc hp hl
  simp only [step] at h
  interval_cases p3
  · rcases m with _ | ⟨_ | _ | _⟩ <;> simp [waiter_thread] at h
    subst h
    refine ⟨?_, ?_, ?_, ?_, ?_, ?_, ?_, ?_, ?_, ?_, ?_⟩ <;>
      first
        | assumption
        | exact lines_append hl (Or.inl rfl)
        | (simp_all; done)
        | (simp_all; omega)
  · by_cases hcnt : count = 2
    · subst hcnt
      simp [waiter_thread] at h
      subst h
      refine ⟨?_, ?_, ?_, ?_, ?_, ?_, ?_, ?_, ?_, ?_, ?_⟩ <;>
        first
          | assumption
          | exact lines_append hl (Or.inl rfl)
          | (simp_all; done)
          | (simp_all; omega)
    · simp [waiter_thread, hcnt] at h
      subst h
      refine ⟨?_, ?_, ?_, ?_, ?_, ?_, ?_, ?_, ?_, ?_, ?_⟩ <;>
        first
          | assumption
          | exact lines_append hl (Or.inl rfl)
          | (simp_all; done)
          | (simp_all; omega)
  · cases nt <;> simp [waiter_thread] at h
    subst h
    refine ⟨?_, ?_, ?_, ?_, ?_, ?_, ?_, ?_, ?_, ?_, ?_⟩ <;>
      first
        | assumption
        | exact lines_append hl (Or.inl rfl)
        | (simp_all; done)
        | (simp_all; omega)
  · rcases m with _ | ⟨_ | _ | _⟩ <;> simp [waiter_thread] at h
    subst h
    refine ⟨?_, ?_, ?_, ?_, ?_, ?_, ?_, ?_, ?_, ?_, ?_⟩ <;>
      first
        | assumption
        | exact lines_append hl (Or.inl rfl)
        | (simp_all; done)
        | (simp_all; omega)
  · have hcnt : count = 2 := hp (Nat.le_refl _)
    subst hcnt
    simp [waiter_thread] at h
    subst h
    refine ⟨?_, ?_, ?_, ?_, ?_, ?_, ?_, ?_, ?_, ?_, ?_⟩ <;>
      first
        | assumption
        | exact lines_append hl (Or.inr rfl)
        | (simp_all; done)
        | (simp_all; omega)
  · rcases m with _ | ⟨_ | _ | _⟩ <;> simp [waiter_thread] at h
    subst h
    refine ⟨?_, ?_, ?_, ?_, ?_, ?_, ?_, ?_, ?_, ?_, ?_⟩ <;>
      first
        | assumption
        | exact lines_append hl (Or.inl rfl)
        | (simp_all; done)
        | (simp_all; omega)
  · simp [waiter_thread] at h

set_option linter.unusedTactic false in
set_option linter.unreachableTactic false in
theorem step_cv_spurious {s s1 : CvState} (hI : Inv s)
    (h : step s CvEvent.spurious = some s1) : Inv s1 := by
  obtain ⟨count, m, nt, ⟨p1, r1⟩, ⟨p2, r2⟩, p3, out⟩ := s
  obtain ⟨h1, h2, h3, o1, o2, o3, g1, g2, hc, hp, hl⟩ := hI
  simp only at h1 h2 h3 o1 o2 o3 g1 g2 hc hp hl
  simp only [step] at h
  by_cases e : p3 = 2
  · subst e
    simp at h
    subst h
    refine ⟨?_, ?_, ?_, ?_, ?_, ?_, ?_, ?_, ?_, ?_, ?_⟩ <;>
      first
        | assumption
        | exact lines_append hl (Or.inl rfl)
        | (simp_all; done)
        | (simp_all; omega)
  · simp [e] at h

theorem step_cv_inv {s s1 : CvState} (hI : Inv s) (e : CvEvent)
    (h : step s e = some s1) : Inv s1 := by
  cases e with
  | spurious => exact step_cv_spurious hI h
  | run t =>
    cases t with
    | t1 => exact step_cv_t1 hI h
    | t2 => exact step_cv_t2 hI h
    | t3 => exact step_cv_t3 hI h

theorem run_cv_inv (es : List CvEvent) : ∀ s : CvState, Inv s → Inv (run s es) := by
  induction es with
  | nil => intro s hI; exact hI
  | cons e es ih =>
    intro s hI
    simp only [run]
    cases hs : step s e with
    | none => exact ih s hI
    | some s1 => exact ih s1 (step_cv_inv hI e hs)

end CvState

/-- C16: in every state `s` reached by an interleaving of the actions of the
three threads of condition_variable.cpp (spurious wake-ups included): when the
waiter is just past `cv.wait` (position 4), `count` is 2 and the waiter holds
`m`; the step that takes the waiter out of `cv.wait` is taken from a state with
`count = 2` in which the waiter holds `m`; every line printed so far is
`count+1!` or `Printing count: 2`; and `count` is between 0 and 2. -/
theorem C16_waiter_sees_two (es : List CvEvent) (s : CvState)
    (hs : CvState.run CvState.init es = s) :
    (s.t3 = 4 → s.count = 2 ∧ s.m = some Tid.t3) ∧
    (∀ s1, s.t3 = 1 → CvState.step s (CvEvent.run Tid.t3) = some s1 → s1.t3 = 4 →
      s.count = 2 ∧ s.m = some Tid.t3 ∧ s1.count = 2 ∧ s1.m = some Tid.t3) ∧
    (∀ l, l ∈ s.out → l = "count+1!" ∨ l = "Printing count: 2") ∧
    0 ≤ s.count ∧ s.count ≤ 2 := by
  have hI : CvState.Inv s := by
    rw [← hs]
    exact CvState.run_cv_inv es CvState.init CvState.init_cv_inv
  have hc := hI.cnt
  refine ⟨?_, ?_, hI.lines, ?_, ?_⟩
  · intro h4
    exact ⟨hI.past (by omega), hI.own3.mpr (Or.inr (Or.inl h4))⟩
  · intro s1 h1 hstep h4
    have hI1 := CvState.step_cv_inv hI _ hstep
    have hm : s.m = some Tid.t3 := hI.own3.mpr (Or.inl h1)
    have hc1 : s1.count = 2 := hI1.past (by omega)
    have hm1 : s1.m = some Tid.t3 := hI1.own3.mpr (Or.inr (Or.inl h4))
    refine ⟨?_, hm, hc1, hm1⟩
    simp only [CvState.step, CvState.waiter_thread, h1] at hstep
    by_cases e : s.count = 2
    · exact e
    · simp only [if_neg e, Option.some.injEq] at hstep
      rw [← hstep] at h4
      simp at h4
  · split_ifs at hc <;> omega
  · split_ifs at hc <;> omega

/-- C16 at the interleaving in which the waiter locks `m`, finds `count = 0` and
blocks, `t1` and then `t2` run to their end (`t2` notifies), and the waiter
wakes, locks `m` again, finds `count = 2`, prints and returns. -/
theorem C16_waiter_sees_two_witness :
    (CvState.run CvState.init demoCvSched = demoCvEnd) ∧
    ((demoCvEnd.t3 = 4 → demoCvEnd.count = 2 ∧ demoCvEnd.m = some Tid.t3) ∧
    (∀ s1, demoCvEnd.t3 = 1 → CvState.step demoCvEnd (CvEvent.run Tid.t3) = some s1 →
      s1.t3 = 4 →
      demoCvEnd.count = 2 ∧ demoCvEnd.m = some Tid.t3 ∧ s1.count = 2 ∧ s1.m = some Tid.t3) ∧
    (∀ l, l ∈ demoCvEnd.out → l = "count+1!" ∨ l = "Printing count: 2") ∧
    0 ≤ demoCvEnd.count ∧ demoCvEnd.count ≤ 2) :=
  ⟨by decide, C16_waiter_sees_two demoCvSched demoCvEnd (by decide)⟩

end Bootcamp
